import Mathlib

set_option maxHeartbeats 1000000

/-!
Verification development for the scone executor
(scone/executor.py, scone/predicate.py).

The execution stacks of both engines are represented with the TOP of the
stack at the HEAD of the Lean list, so a Python `stack.append(x)` is
`x :: stack` and `stack.pop()` takes the head.  The world-state domain
model (scone/state.py) is not part of the sources; the executors only call
into it through the World-State Port interface, which is modelled from the
specification below.
-/

/-- A value that can appear on the execution stack or inside a command
history entry: a string (colors, fractions, action names), an integer, an
object list, or a single domain object (a SconeObject, identified by an
id). -/
inductive SVal where
  | vstr : String → SVal
  | vint : Int → SVal
  | vobjs : List Nat → SVal
  | vobj : Nat → SVal
deriving DecidableEq, Repr

/-- Python truthiness of a value, as used by the `assert result` statements
on join results (an empty string, zero, or an empty list is falsy; a domain
object is truthy). -/
def SVal.truthy : SVal → Bool
  | .vstr s => !s.isEmpty
  | .vint n => n != 0
  | .vobjs l => !l.isEmpty
  | .vobj _ => true

/-- Python sequence indexing `l[i]`: a nonnegative index counts from the
front, a negative index counts from the right; out of range yields `none`
(an IndexError in Python). -/
def pyIndex (l : List α) (i : Int) : Option α :=
  if 0 ≤ i then l.get? i.toNat
  else if 0 ≤ i + l.length then l.get? (i + l.length).toNat
  else none

/-- Accumulator pass of decimal digit parsing: fails on the first
non-digit character. -/
def decDigitsAux : List Char → Nat → Option Nat
  | [], acc => some acc
  | c :: rest, acc =>
    if c.isDigit then decDigitsAux rest (acc * 10 + (c.toNat - 48))
    else none

/-- Python `int()` on a token: an optional leading minus sign followed by
one or more decimal digits; anything else is a ValueError (`none`).
Python also accepts a plus sign and surrounding whitespace, but no
predicate name of the grammar produces those shapes. -/
def pyInt? (s : String) : Option Int :=
  match s.data with
  | [] => none
  | '-' :: rest =>
    match rest with
    | [] => none
    | _ :: _ => (decDigitsAux rest 0).map (fun n => -(n : Int))
  | l => (decDigitsAux l 0).map (fun n => (n : Int))

/-- The failure conditions of the executors.  Each constructor corresponds
to a concrete Python exception site: `UnknownPredicate` and
`IncompleteProgram` and `ValueParseError` are ValueErrors,
`StackUnderflow` (pop from an empty list) and `IndexOutOfRange` are
IndexErrors, and the remaining ones are AssertionErrors
(`EmptyJoinResult` from `assert result`, `TypeAssertFailure` from the
isinstance asserts, `MisplacedAction` from `assert not
denotation.execution_stack` when opening an action frame,
`MisplacedFunction` from `assert denotation.execution_stack` when opening
a non-action function frame, `InvalidArgument` from the argument check of
a history frame). -/
inductive ExecError where
  | UnknownPredicate : String → ExecError
  | EmptyJoinResult
  | InvalidArgument
  | MisplacedAction
  | MisplacedFunction
  | IncompleteProgram
  | StackUnderflow
  | IndexOutOfRange
  | TypeAssertFailure
  | ValueParseError
deriving DecidableEq, Repr

/-- Whether the error is a fatal assertion (an AssertionError in Python),
as opposed to a recoverable ValueError or IndexError. -/
def ExecError.isAssertionError : ExecError → Bool
  | .EmptyJoinResult => true
  | .InvalidArgument => true
  | .MisplacedAction => true
  | .MisplacedFunction => true
  | .TypeAssertFailure => true
  | _ => false

/-- Whether the error is one of the named conditions of the specification
error taxonomy (section 7): UnknownPredicate, EmptyJoinResult,
InvalidArgument, MisplacedAction, IncompleteProgram. -/
def ExecError.isNamedCondition : ExecError → Bool
  | .UnknownPredicate _ => true
  | .EmptyJoinResult => true
  | .InvalidArgument => true
  | .MisplacedAction => true
  | .IncompleteProgram => true
  | _ => false

/-- A command history entry: an ordered sequence whose first element is the
action name (as a string value) and whose remaining elements are the
resolved arguments of that action. -/
abbrev HistEntry := List SVal

/-- Modelled from the spec: the World-State Port, the abstract interface
that the executors call into.  Its implementation (scone/state.py) is not
among the sources; per the specification (sections 4.2, 6 and 9) the
`apply_action` capability consumes, by popping, exactly the arguments an
action needs from the tail of the list it is handed, and returns a new
world state plus a history entry, so it is modelled by a per-action
`arity` together with a total action semantics `act` receiving exactly the
consumed arguments in bottom-to-top order. -/
structure WorldPort (σ : Type) where
  all_objects : σ → List Nat
  apply_join : σ → SVal → String → SVal
  apply_double_join : σ → SVal → SVal → String → SVal
  arity : String → Nat
  act : σ → String → List SVal → σ × HistEntry
  reverse_action : σ → String → String
  resolve_argument : σ → Nat → SVal

/-- Modelled from the spec: `apply_action` handed the live execution stack
(top at the head here).  The port pops `arity` many arguments off the top;
`act` receives the consumed arguments in bottom-to-top order, and the
remaining stack is returned.  Popping more elements than the stack holds
is an IndexError. -/
def WorldPort.applyActionStack (port : WorldPort σ) (s : σ) (a : String)
    (stack : List SVal) : Except ExecError (σ × HistEntry × List SVal) :=
  if port.arity a ≤ stack.length then
    let r := port.act s a ((stack.take (port.arity a)).reverse)
    .ok (r.1, r.2, stack.drop (port.arity a))
  else .error .StackUnderflow

/-- Modelled from the spec: `apply_action` handed a pre-collected argument
list (in bottom-to-top order, as the top-down engine collects it).  The
port pops its arity from the tail of that list, hence consumes the last
`arity` many elements; the list itself is discarded afterwards. -/
def WorldPort.applyActionArgs (port : WorldPort σ) (s : σ) (a : String)
    (args : List SVal) : Except ExecError (σ × HistEntry) :=
  if port.arity a ≤ args.length then
    .ok (port.act s a (args.drop (args.length - port.arity a)))
  else .error .StackUnderflow

/-- Modelled from the spec: the domain state `check_argument` capability
(section 4.3): a frame is ready exactly when the argument about to be
added completes the required argument count, which is 1 for a property
frame, 2 for a double-property frame, and the action arity for an action
frame.  `n` is the length of the full Python frame list, that is one (for
the function name) plus the number of arguments collected so far. -/
def WorldPort.state_check_argument (port : WorldPort σ) (name : String)
    (n : Nat) : Bool :=
  match name.data with
  | [] => false
  | c :: cs =>
    if c = 'P' then n == 1
    else if c = 'D' then n == 2
    else if c = 'A' then n == port.arity (String.mk cs)
    else false

/-- The shared denotation data model (scone/executor.py, SconeDenotVal):
current world state, command history, and working execution stack. -/
structure SconeDenotVal (σ : Type) where
  world_state : σ
  command_history : List HistEntry
  execution_stack : List SVal
deriving DecidableEq, Repr

/-- scone/executor.py, SconeExecutor.apply (lines 105-205): dispatch on
the string shape of the predicate name and transform the denotation.
Comparisons with whole names like `all-objects` are done on the
decomposed character list; the stack top is the list head. -/
def SconeExecutor.apply (port : WorldPort σ) (name : String)
    (d : SconeDenotVal σ) : Except ExecError (SconeDenotVal σ) :=
  match name.data with
  | [] => .error .IndexOutOfRange
  | c :: cs =>
    if cs = [] ∧ c.isAlpha then
      -- Color: Push onto the stack
      .ok ⟨d.world_state, d.command_history, .vstr name :: d.execution_stack⟩
    else if c = '-' ∨ c.isDigit then
      -- Number: Push onto the stack
      match pyInt? name with
      | some n =>
        .ok ⟨d.world_state, d.command_history, .vint n :: d.execution_stack⟩
      | none => .error .ValueParseError
    else if c = 'X' then
      -- Fraction: Push onto the stack
      .ok ⟨d.world_state, d.command_history, .vstr name :: d.execution_stack⟩
    else if c = 'a' ∧ cs = "ll-objects".data then
      -- All objects: Push onto the stack
      .ok ⟨d.world_state, d.command_history,
        .vobjs (port.all_objects d.world_state) :: d.execution_stack⟩
    else if c = 'P' then
      -- Property: Join with the value
      match d.execution_stack with
      | [] => .error .StackUnderflow
      | v :: rest =>
        let result := port.apply_join d.world_state v (String.mk cs)
        if result.truthy then
          .ok ⟨d.world_state, d.command_history, result :: rest⟩
        else .error .EmptyJoinResult
    else if c = 'D' then
      -- Double-Property: Join with the values (value2 popped first)
      match d.execution_stack with
      | [] => .error .StackUnderflow
      | [_] => .error .StackUnderflow
      | v2 :: v1 :: rest =>
        let result := port.apply_double_join d.world_state v1 v2 (String.mk cs)
        if result.truthy then
          .ok ⟨d.world_state, d.command_history, result :: rest⟩
        else .error .EmptyJoinResult
    else if c = 'A' then
      -- Perform action
      match port.applyActionStack d.world_state (String.mk cs) d.execution_stack with
      | .ok r => .ok ⟨r.1, d.command_history ++ [r.2.1], r.2.2⟩
      | .error e => .error e
    else if c = 'i' ∧ cs = "ndex".data then
      -- Perform indexing on a list of objects
      match d.execution_stack with
      | [] => .error .StackUnderflow
      | .vint n :: rest =>
        match rest with
        | [] => .error .StackUnderflow
        | .vobjs objs :: rest2 =>
          match pyIndex objs (if 0 < n then n - 1 else n) with
          | some x =>
            .ok ⟨d.world_state, d.command_history, .vobj x :: rest2⟩
          | none => .error .IndexOutOfRange
        | _ :: _ => .error .TypeAssertFailure
      | _ :: _ => .error .TypeAssertFailure
    else if c = 'H' then
      -- History slot
      match d.execution_stack with
      | [] => .error .StackUnderflow
      | .vint n :: rest =>
        match pyIndex d.command_history (if 0 < n then n - 1 else n) with
        | none => .error .IndexOutOfRange
        | some command =>
          if cs = ['0'] then
            -- Get the action and execute
            match pyIndex command 0 with
            | none => .error .IndexOutOfRange
            | some (.vstr a) =>
              match port.applyActionStack d.world_state a rest with
              | .ok r => .ok ⟨r.1, d.command_history ++ [r.2.1], r.2.2⟩
              | .error e => .error e
            | some _ => .error .TypeAssertFailure
          else if cs = "Undo".data then
            -- Get the opposite and execute
            match pyIndex command 0 with
            | none => .error .IndexOutOfRange
            | some (.vstr a0) =>
              match port.applyActionStack d.world_state
                  (port.reverse_action d.world_state a0) rest with
              | .ok r => .ok ⟨r.1, d.command_history ++ [r.2.1], r.2.2⟩
              | .error e => .error e
            | some _ => .error .TypeAssertFailure
          else
            -- Just push onto the stack
            match pyInt? (String.mk cs) with
            | none => .error .ValueParseError
            | some k =>
              match pyIndex command k with
              | none => .error .IndexOutOfRange
              | some (.vint m) =>
                .ok ⟨d.world_state, d.command_history, .vint m :: rest⟩
              | some (.vstr t) =>
                .ok ⟨d.world_state, d.command_history, .vstr t :: rest⟩
              | some (.vobj o) =>
                .ok ⟨d.world_state, d.command_history,
                  port.resolve_argument d.world_state o :: rest⟩
              | some (.vobjs _) => .error .TypeAssertFailure
      | _ :: _ => .error .TypeAssertFailure
    else .error (.UnknownPredicate name)

/-- The left-to-right execution loop of SconeExecutor.execute, threading
the denotation through apply once per predicate and propagating the first
failure. -/
def runBU (port : WorldPort σ) : List String → SconeDenotVal σ →
    Except ExecError (SconeDenotVal σ)
  | [], d => .ok d
  | t :: ts, d =>
    match SconeExecutor.apply port t d with
    | .ok d' => runBU port ts d'
    | .error e => .error e

/-- The seeding step shared by execute and execute_predicate (lines 62-69
and 79-86): a fresh denotation from the initial state, or a copy of the
given prior denotation (history shared, stack copied by value; in this
value semantics both are plain equality). -/
def seedFrom (initial : σ) : Option (SconeDenotVal σ) → SconeDenotVal σ
  | none => ⟨initial, [], []⟩
  | some od => ⟨od.world_state, od.command_history, od.execution_stack⟩

/-- scone/executor.py, SconeExecutor.execute (lines 49-76). -/
def SconeExecutor.execute (port : WorldPort σ) (initial : σ)
    (y_toks : List String) (old : Option (SconeDenotVal σ)) :
    Except ExecError (SconeDenotVal σ) :=
  runBU port y_toks (seedFrom initial old)

/-- scone/executor.py, SconeExecutor.execute_predicate (lines 78-87). -/
def SconeExecutor.execute_predicate (port : WorldPort σ) (initial : σ)
    (p : String) (old : Option (SconeDenotVal σ)) :
    Except ExecError (SconeDenotVal σ) :=
  SconeExecutor.apply port p (seedFrom initial old)

/-- scone/executor.py, SconeExecutor.finalize (lines 89-100): raise
STACK_NOT_EMPTY (the IncompleteProgram condition of the spec) when the
stack is nonempty, otherwise return the world state unchanged. -/
def SconeExecutor.finalize (d : SconeDenotVal σ) : Except ExecError σ :=
  match d.execution_stack with
  | [] => .ok d.world_state
  | _ :: _ => .error .IncompleteProgram

/-- scone/predicate.py: the predicate type tags. -/
inductive SconePredicateType where
  | color
  | number
  | fraction
  | property
  | double_property
  | action
  | builtin
  | history_slot
deriving DecidableEq, Repr

/-- scone/predicate.py: the fixed ordered tuple ALL_TYPES. -/
def SconePredicateType.ALL_TYPES : List SconePredicateType :=
  [.color, .number, .fraction, .property, .double_property, .action,
   .builtin, .history_slot]

/-- scone/predicate.py: BUILTIN_NAMES. -/
def BUILTIN_NAMES : List String := ["all-objects", "index", "argmin", "argmax"]

/-- scone/predicate.py, SconePredicate._compute_types (lines 27-49):
first-match classification of a name; raises ValueError (the
UnknownPredicate condition) when no rule matches a nonempty name, and
accessing the first character of an empty name is an IndexError. -/
def SconePredicate.computeTypes (name : String) :
    Except ExecError (List SconePredicateType) :=
  match name.data with
  | [] => .error .IndexOutOfRange
  | c :: cs =>
    if cs = [] ∧ c.isAlpha then .ok [.color]
    else if c = '-' ∨ c.isDigit then .ok [.number]
    else if c = 'X' then .ok [.fraction]
    else if c = 'P' then .ok [.property]
    else if c = 'D' then .ok [.double_property]
    else if c = 'A' then .ok [.action]
    else if BUILTIN_NAMES.contains name then .ok [.builtin]
    else if c = 'H' then .ok [.history_slot]
    else .error (.UnknownPredicate name)

/-- scone/predicate.py, SconePredicate.types_vector (lines 80-87): the
k-hot membership vector of a types tuple over ALL_TYPES. -/
def SconePredicate.typesVector (types : List SconePredicateType) : List Bool :=
  SconePredicateType.ALL_TYPES.map (fun x => types.contains x)

/-- A top-down call frame: the pending function or action name plus the
arguments collected so far, in order of arrival. -/
abbrev Frame := String × List SVal

/-- The denotation as manipulated by the top-down engine: the execution
stack holds open call frames, innermost frame at the head. -/
structure TDDenotVal (σ : Type) where
  world_state : σ
  command_history : List HistEntry
  execution_stack : List Frame
deriving DecidableEq, Repr

/-- scone/executor.py, SconeTopDownExecutor.check_argument (lines
214-236): an `index` frame is ready at two collected arguments (n == 2
counts the function name), a history frame asserts its single argument is
an integer, and everything else is delegated to the domain state check
(modelled from the spec by the port arity policy). -/
def SconeTopDownExecutor.check_argument (port : WorldPort σ) (frame : Frame)
    (next : SVal) : Except ExecError Bool :=
  let n := frame.2.length + 1
  if frame.1 = "index" then .ok (n == 2)
  else
    match frame.1.data with
    | [] => .error .IndexOutOfRange
    | c :: _ =>
      if c = 'H' then
        match next with
        | .vint _ => .ok (n == 1)
        | _ => .error .InvalidArgument
      else .ok (port.state_check_argument frame.1 n)

/-- The argument-feeding step of SconeTopDownExecutor.apply together
with its while loop (lines 287-352), fused into one structural recursion
on the stack: check readiness of the next value against the innermost
frame and append it; when the frame becomes ready, pop it, evaluate it
with the same per-kind semantics as the bottom-up engine, and feed the
result into the newly exposed frame (or return as soon as an action
fires).  An empty stack is a pop from an empty list (IndexError). -/
def tdFeed (port : WorldPort σ) (ws : σ) (hist : List HistEntry) :
    SVal → List Frame → Except ExecError (TDDenotVal σ)
  | _, [] => .error .StackUnderflow
  | v, f :: rest =>
    match SconeTopDownExecutor.check_argument port f v with
    | .error e => .error e
    | .ok ready =>
      if ready then
        -- Execute the innermost function: args is the popped frame list
        match f.1.data with
        | [] => .error .IndexOutOfRange
        | c :: cs =>
          if c = 'P' then
            -- Property: Join with the value
            match (f.2 ++ [v]).get? 0 with
            | none => .error .IndexOutOfRange
            | some v1 =>
              let result := port.apply_join ws v1 (String.mk cs)
              if result.truthy then tdFeed port ws hist result rest
              else .error .EmptyJoinResult
          else if c = 'D' then
            -- Double-Property: Join with the values
            match (f.2 ++ [v]).get? 0, (f.2 ++ [v]).get? 1 with
            | some v1, some v2 =>
              let result := port.apply_double_join ws v1 v2 (String.mk cs)
              if result.truthy then tdFeed port ws hist result rest
              else .error .EmptyJoinResult
            | _, _ => .error .IndexOutOfRange
          else if c = 'A' then
            -- Perform action with the collected arguments
            match port.applyActionArgs ws (String.mk cs) (f.2 ++ [v]) with
            | .ok r => .ok ⟨r.1, hist ++ [r.2], rest⟩
            | .error e => .error e
          else if c = 'i' ∧ cs = "ndex".data then
            -- Perform indexing on a list of objects
            match (f.2 ++ [v]).get? 0, (f.2 ++ [v]).get? 1 with
            | some objsv, some numv =>
              match objsv with
              | .vobjs objs =>
                match numv with
                | .vint n =>
                  match pyIndex objs (if 0 < n then n - 1 else n) with
                  | some x => tdFeed port ws hist (.vobj x) rest
                  | none => .error .IndexOutOfRange
                | _ => .error .TypeAssertFailure
              | _ => .error .TypeAssertFailure
            | _, _ => .error .IndexOutOfRange
          else if c = 'H' then
            -- History slot
            match (f.2 ++ [v]).get? 0 with
            | none => .error .IndexOutOfRange
            | some (.vint n) =>
              match pyIndex hist (if 0 < n then n - 1 else n) with
              | none => .error .IndexOutOfRange
              | some command =>
                if cs = ['0'] then
                  -- Get the action and push an action frame onto the stack
                  match pyIndex command 0 with
                  | none => .error .IndexOutOfRange
                  | some (.vstr a) =>
                    match rest with
                    | [] => .ok ⟨ws, hist, [("A" ++ a, [])]⟩
                    | _ :: _ => .error .MisplacedAction
                  | some _ => .error .TypeAssertFailure
                else if cs = "Undo".data then
                  -- Get the opposite action and push an action frame
                  match pyIndex command 0 with
                  | none => .error .IndexOutOfRange
                  | some (.vstr a0) =>
                    match rest with
                    | [] => .ok ⟨ws, hist, [("A" ++ port.reverse_action ws a0, [])]⟩
                    | _ :: _ => .error .MisplacedAction
                  | some _ => .error .TypeAssertFailure
                else
                  -- Get the argument and feed it
                  match pyInt? (String.mk cs) with
                  | none => .error .ValueParseError
                  | some k =>
                    match pyIndex command k with
                    | none => .error .IndexOutOfRange
                    | some (.vint m) => tdFeed port ws hist (.vint m) rest
                    | some (.vstr t) => tdFeed port ws hist (.vstr t) rest
                    | some (.vobj o) =>
                      tdFeed port ws hist (port.resolve_argument ws o) rest
                    | some (.vobjs _) => .error .TypeAssertFailure
            | some _ => .error .TypeAssertFailure
          else .error (.UnknownPredicate f.1)
      else .ok ⟨ws, hist, (f.1, f.2 ++ [v]) :: rest⟩

/-- scone/executor.py, SconeTopDownExecutor.apply (lines 238-352):
argument predicates feed a value into the innermost frame; action
predicates open a frame on an empty stack only; other function predicates
open a frame on a nonempty stack only. -/
def SconeTopDownExecutor.apply (port : WorldPort σ) (name : String)
    (d : TDDenotVal σ) : Except ExecError (TDDenotVal σ) :=
  match name.data with
  | [] => .error .IndexOutOfRange
  | c :: cs =>
    if cs = [] ∧ c.isAlpha then
      -- Color: Append to the function arguments
      tdFeed port d.world_state d.command_history (.vstr name) d.execution_stack
    else if c = '-' ∨ c.isDigit then
      -- Number: Append to the function arguments
      match pyInt? name with
      | some n =>
        tdFeed port d.world_state d.command_history (.vint n) d.execution_stack
      | none => .error .ValueParseError
    else if c = 'X' then
      -- Fraction: Append to the function arguments
      tdFeed port d.world_state d.command_history (.vstr name) d.execution_stack
    else if c = 'a' ∧ cs = "ll-objects".data then
      -- All objects: Append to the function arguments
      tdFeed port d.world_state d.command_history
        (.vobjs (port.all_objects d.world_state)) d.execution_stack
    else if c = 'A' ∨ (c = 'H' ∧ cs = ['0']) ∨ (c = 'H' ∧ cs = "Undo".data) then
      -- Action: Push onto the stack (only when the stack is empty)
      match d.execution_stack with
      | [] => .ok ⟨d.world_state, d.command_history, [(name, [])]⟩
      | _ :: _ => .error .MisplacedAction
    else if c = 'P' ∨ c = 'D' ∨ c = 'A' ∨ c = 'H' ∨ (c = 'i' ∧ cs = "ndex".data) then
      -- Function: Push onto the stack (only when the stack is nonempty)
      match d.execution_stack with
      | [] => .error .MisplacedFunction
      | top :: _ =>
        match SconeTopDownExecutor.check_argument port top (.vstr name) with
        | .error e => .error e
        | .ok _ =>
          .ok ⟨d.world_state, d.command_history, (name, []) :: d.execution_stack⟩
    else .error (.UnknownPredicate name)

/-- The left-to-right execution loop of execute, as inherited by the
top-down executor (it dispatches to the overridden apply). -/
def runTD (port : WorldPort σ) : List String → TDDenotVal σ →
    Except ExecError (TDDenotVal σ)
  | [], d => .ok d
  | t :: ts, d =>
    match SconeTopDownExecutor.apply port t d with
    | .ok d' => runTD port ts d'
    | .error e => .error e

/-- The seeding step of execute for the top-down engine. -/
def seedTDFrom (initial : σ) : Option (TDDenotVal σ) → TDDenotVal σ
  | none => ⟨initial, [], []⟩
  | some od => ⟨od.world_state, od.command_history, od.execution_stack⟩

/-- SconeExecutor.execute as inherited by SconeTopDownExecutor. -/
def SconeTopDownExecutor.execute (port : WorldPort σ) (initial : σ)
    (y_toks : List String) (old : Option (TDDenotVal σ)) :
    Except ExecError (TDDenotVal σ) :=
  runTD port y_toks (seedTDFrom initial old)

/-- SconeExecutor.finalize as inherited by SconeTopDownExecutor. -/
def SconeTopDownExecutor.finalize (d : TDDenotVal σ) : Except ExecError σ :=
  match d.execution_stack with
  | [] => .ok d.world_state
  | _ :: _ => .error .IncompleteProgram

/-! Helper lemmas about strings, and a small concrete port used by the
witnesses below. -/

theorem string_mk_data (s : String) : String.mk s.data = s := rfl

theorem string_data_eq_nil {s : String} : s.data = [] ↔ s = "" := by
  constructor
  · intro h
    cases s with
    | mk data =>
      cases h
      rfl
  · intro h
    subst h
    rfl

theorem string_data_append (s t : String) : (s ++ t).data = s.data ++ t.data :=
  rfl

/-- A small concrete world port over natural-number world states, used by
the witnesses: the action named Nop has arity 0, Inc has arity 1, all
others have arity 2; every action bumps the state by one and records its
name and arguments. -/
def samplePort : WorldPort Nat :=
  ⟨fun _ => [1, 2, 3],
   fun _ v _ => match v with | .vstr _ => .vobjs [7] | _ => .vobjs [9],
   fun _ _ _ _ => .vobjs [8],
   fun a => if a = "Nop" then 0 else if a = "Inc" then 1 else 2,
   fun s a args => (s + 1, .vstr a :: args),
   fun _ a => "Un" ++ a,
   fun _ o => .vint (Int.ofNat o)⟩

/-- C5: finalize fails with the IncompleteProgram condition if and only if
the execution stack is nonempty, and on an empty stack returns the world
state unchanged with no further computation. -/
theorem finalize_incomplete_iff_stack_nonempty (σ : Type)
    (d : SconeDenotVal σ) :
    (SconeExecutor.finalize d = .error .IncompleteProgram ↔
      d.execution_stack ≠ []) ∧
    (d.execution_stack = [] → SconeExecutor.finalize d = .ok d.world_state) := by
  obtain ⟨ws, hist, st⟩ := d
  cases st <;> simp [SconeExecutor.finalize]

/-- Witness for C5 at concrete denotations. -/
theorem finalize_incomplete_iff_stack_nonempty_witness :
    SconeExecutor.finalize (⟨0, [], []⟩ : SconeDenotVal Nat) = .ok 0 ∧
    SconeExecutor.finalize (⟨0, [], [SVal.vint 1]⟩ : SconeDenotVal Nat) =
      .error .IncompleteProgram :=
  ⟨(finalize_incomplete_iff_stack_nonempty Nat ⟨0, [], []⟩).2 rfl,
   (finalize_incomplete_iff_stack_nonempty Nat ⟨0, [], [SVal.vint 1]⟩).1.mpr
     (by decide)⟩

/-- C6: executing a two-predicate sequence with one execute call equals
executing it with two threaded execute_predicate calls, as a full equality
of resulting denotations (hence equality in all three components). -/
theorem execute_pair_eq_threaded_single_steps (σ : Type) (port : WorldPort σ)
    (initial : σ) (A B : String) (old : Option (SconeDenotVal σ)) :
    SconeExecutor.execute port initial [A, B] old =
      (SconeExecutor.execute_predicate port initial A old).bind
        (fun d1 => SconeExecutor.execute_predicate port initial B (some d1)) := by
  simp only [SconeExecutor.execute, SconeExecutor.execute_predicate, runBU]
  cases h : SconeExecutor.apply port A (seedFrom initial old) with
  | error e => rfl
  | ok d1 =>
    show (match SconeExecutor.apply port B d1 with
          | .ok d2 => runBU port [] d2
          | .error e => .error e) =
        SconeExecutor.apply port B (seedFrom initial (some d1))
    cases h2 : SconeExecutor.apply port B d1 <;> simp [seedFrom, h2, runBU]

/-- C10: argmin and argmax are classified as BUILTIN, yet both executors
reject them with UnknownPredicate on every denotation. -/
theorem argmin_argmax_builtin_but_never_executable :
    SconePredicate.computeTypes "argmin" = .ok [.builtin] ∧
    SconePredicate.computeTypes "argmax" = .ok [.builtin] ∧
    ∀ (σ : Type) (port : WorldPort σ) (d : SconeDenotVal σ)
      (td : TDDenotVal σ),
      SconeExecutor.apply port "argmin" d =
        .error (.UnknownPredicate "argmin") ∧
      SconeExecutor.apply port "argmax" d =
        .error (.UnknownPredicate "argmax") ∧
      SconeTopDownExecutor.apply port "argmin" td =
        .error (.UnknownPredicate "argmin") ∧
      SconeTopDownExecutor.apply port "argmax" td =
        .error (.UnknownPredicate "argmax") := by
  refine ⟨rfl, rfl, fun σ port d td => ⟨rfl, rfl, rfl, rfl⟩⟩

/-- From the claim and spec section 3: the classification rule as worded
in the specification, stated independently as the reference for the
refinement theorem for C7.  The rules are applied in the fixed order with
first match winning; `none` means no rule matches. -/
def classifySpec (name : String) : Option SconePredicateType :=
  match name.data with
  | [] => none
  | c :: cs =>
    if cs = [] ∧ c.isAlpha then some .color
    else if c = '-' ∨ c.isDigit then some .number
    else if c = 'X' then some .fraction
    else if c = 'P' then some .property
    else if c = 'D' then some .double_property
    else if c = 'A' then some .action
    else if name = "all-objects" ∨ name = "index" ∨ name = "argmin" ∨
        name = "argmax" then some .builtin
    else if c = 'H' then some .history_slot
    else none

theorem builtin_contains_iff (name : String) :
    BUILTIN_NAMES.contains name = true ↔
      (name = "all-objects" ∨ name = "index" ∨ name = "argmin" ∨
        name = "argmax") := by
  simp [BUILTIN_NAMES]

/-- C7 (amended): on every nonempty name, classification agrees with the
first-match rule list of the specification, assigns exactly one tag (the
k-hot types vector has exactly one true entry), and fails with
UnknownPredicate exactly when no rule matches; the empty name instead
fails with an index error, which forces the nonemptiness restriction. -/
theorem computeTypes_refines_classification_rules (name : String)
    (hne : name ≠ "") :
    (SconePredicate.computeTypes name =
      match classifySpec name with
      | some t => .ok [t]
      | none => .error (.UnknownPredicate name)) ∧
    (∀ t, classifySpec name = some t →
      (SconePredicate.typesVector [t]).count true = 1) := by
  constructor
  · unfold SconePredicate.computeTypes classifySpec
    cases hd : name.data with
    | nil => exact absurd (string_data_eq_nil.mp hd) hne
    | cons c cs =>
      have hbuiltin : (BUILTIN_NAMES.contains name = true) =
          (name = "all-objects" ∨ name = "index" ∨ name = "argmin" ∨
            name = "argmax") :=
        propext (builtin_contains_iff name)
      simp only [hbuiltin]
      split_ifs <;> rfl
  · intro t _
    cases t <;> rfl

/-- C7 counterexample: the empty name matches no classification rule, yet
classification fails with an IndexError (accessing the first character),
not with the UnknownPredicate condition the claim states. -/
theorem computeTypes_empty_name_not_unknown :
    classifySpec "" = none ∧
    SconePredicate.computeTypes "" = .error .IndexOutOfRange ∧
    ExecError.IndexOutOfRange ≠ ExecError.UnknownPredicate "" :=
  ⟨rfl, rfl, by decide⟩

/-- Witness for C7 at concrete names of each kind. -/
theorem computeTypes_refines_classification_rules_witness :
    SconePredicate.computeTypes "PColor" = .ok [.property] ∧
    SconePredicate.computeTypes "zz" = .error (.UnknownPredicate "zz") ∧
    (SconePredicate.typesVector [.property]).count true = 1 := by
  have h := computeTypes_refines_classification_rules "PColor" (by decide)
  have h2 := computeTypes_refines_classification_rules "zz" (by decide)
  exact ⟨h.1, h2.1, h.2 .property rfl⟩

/-- C2 (amended): a frame for H0, HUndo, or an A-action predicate is
opened with zero collected arguments, but it is NOT immediately applied:
the readiness flag is set to false, so the frame waits for later
arguments.  Such a frame may only be opened when the execution stack is
currently empty; opening it on a nonempty stack fails with the
MisplacedAction assertion, which is a fatal assertion error rather than a
recoverable one. -/
theorem action_frame_opening (σ : Type) (port : WorldPort σ) (name : String)
    (d : TDDenotVal σ)
    (hform : (∃ rest, rest ≠ [] ∧ name.data = 'A' :: rest) ∨ name = "H0" ∨
      name = "HUndo") :
    (d.execution_stack = [] →
      SconeTopDownExecutor.apply port name d =
        .ok ⟨d.world_state, d.command_history, [(name, [])]⟩) ∧
    (d.execution_stack ≠ [] →
      SconeTopDownExecutor.apply port name d = .error .MisplacedAction) ∧
    ExecError.MisplacedAction.isAssertionError = true := by
  have key : SconeTopDownExecutor.apply port name d =
      (match d.execution_stack with
       | [] => .ok ⟨d.world_state, d.command_history, [(name, [])]⟩
       | _ :: _ => .error .MisplacedAction) := by
    rcases hform with ⟨rest, hrest, hd⟩ | h0 | hu
    · simp only [SconeTopDownExecutor.apply, hd]
      rw [if_neg (fun h => hrest h.1),
          if_neg (by decide : ¬(('A' : Char) = '-' ∨ ('A' : Char).isDigit = true)),
          if_neg (by decide : ¬('A' : Char) = 'X'),
          if_neg (fun h => absurd h.1 (by decide))]
      simp
    · subst h0; rfl
    · subst hu; rfl
  refine ⟨fun hs => ?_, fun hs => ?_, rfl⟩
  · rw [key, hs]
  · cases hstack : d.execution_stack with
    | nil => exact absurd hstack hs
    | cons f r => rw [key, hstack]

/-- C2 counterexample: the action Nop of samplePort has arity 0, so an
ANop frame is opened with its full complement of arguments; were it
immediately ready to apply, the reduction loop would fire it.  Instead the
apply step returns with the frame still pending and the command history
unchanged, and finalizing afterwards fails. -/
theorem nullary_action_frame_not_immediately_applied :
    samplePort.arity "Nop" = 0 ∧
    SconeTopDownExecutor.apply samplePort "ANop" ⟨0, [], []⟩ =
      .ok ⟨0, [], [("ANop", [])]⟩ ∧
    (SconeTopDownExecutor.execute samplePort 0 ["ANop"] none).bind
        SconeTopDownExecutor.finalize = .error .IncompleteProgram :=
  ⟨rfl, rfl, rfl⟩

/-- Witness for C2 at a concrete action name, in both stack situations. -/
theorem action_frame_opening_witness :
    SconeTopDownExecutor.apply samplePort "AInc"
        (⟨0, [], []⟩ : TDDenotVal Nat) = .ok ⟨0, [], [("AInc", [])]⟩ ∧
    SconeTopDownExecutor.apply samplePort "H0"
        (⟨0, [], [("AInc", [])]⟩ : TDDenotVal Nat) =
      .error .MisplacedAction := by
  constructor
  · exact (action_frame_opening Nat samplePort "AInc" ⟨0, [], []⟩
      (Or.inl ⟨"Inc".data, by decide, rfl⟩)).1 rfl
  · exact (action_frame_opening Nat samplePort "H0" ⟨0, [], [("AInc", [])]⟩
      (Or.inr (Or.inl rfl))).2.1 (by simp)

/-- Reduction of the bottom-up apply at a property name `P` followed by a
nonempty property string. -/
theorem apply_prop_step (port : WorldPort σ) (p : String) (hp : p ≠ "")
    (d : SconeDenotVal σ) :
    SconeExecutor.apply port ("P" ++ p) d =
      match d.execution_stack with
      | [] => .error .StackUnderflow
      | v :: rest =>
        if (port.apply_join d.world_state v p).truthy then
          .ok ⟨d.world_state, d.command_history,
            port.apply_join d.world_state v p :: rest⟩
        else .error .EmptyJoinResult := by
  have hd : ("P" ++ p).data = 'P' :: p.data := rfl
  simp only [SconeExecutor.apply, hd]
  rw [if_neg (fun h => hp (string_data_eq_nil.mp h.1)),
      if_neg (by decide : ¬(('P' : Char) = '-' ∨ ('P' : Char).isDigit = true)),
      if_neg (by decide : ¬('P' : Char) = 'X'),
      if_neg (fun h => absurd h.1 (by decide))]
  simp only [string_mk_data]
  simp

/-- Reduction of the bottom-up apply at a double-property name `D`
followed by a nonempty property string. -/
theorem apply_dprop_step (port : WorldPort σ) (p : String) (hp : p ≠ "")
    (d : SconeDenotVal σ) :
    SconeExecutor.apply port ("D" ++ p) d =
      match d.execution_stack with
      | [] => .error .StackUnderflow
      | [_] => .error .StackUnderflow
      | v2 :: v1 :: rest =>
        if (port.apply_double_join d.world_state v1 v2 p).truthy then
          .ok ⟨d.world_state, d.command_history,
            port.apply_double_join d.world_state v1 v2 p :: rest⟩
        else .error .EmptyJoinResult := by
  have hd : ("D" ++ p).data = 'D' :: p.data := rfl
  simp only [SconeExecutor.apply, hd]
  rw [if_neg (fun h => hp (string_data_eq_nil.mp h.1)),
      if_neg (by decide : ¬(('D' : Char) = '-' ∨ ('D' : Char).isDigit = true)),
      if_neg (by decide : ¬('D' : Char) = 'X'),
      if_neg (fun h => absurd h.1 (by decide)),
      if_neg (by decide : ¬('D' : Char) = 'P')]
  simp only [string_mk_data]
  simp

/-- Reduction of the bottom-up apply at a history-slot name `H` followed
by at least one further character: on an empty stack the slot pop
underflows before anything else happens. -/
theorem apply_hist_empty_stack (port : WorldPort σ) (name : String)
    (cs : List Char) (hd : name.data = 'H' :: cs) (hcs : cs ≠ [])
    (ws : σ) (hist : List HistEntry) :
    SconeExecutor.apply port name ⟨ws, hist, []⟩ = .error .StackUnderflow := by
  simp only [SconeExecutor.apply, hd]
  rw [if_neg (fun h => hcs h.1),
      if_neg (by decide : ¬(('H' : Char) = '-' ∨ ('H' : Char).isDigit = true)),
      if_neg (by decide : ¬('H' : Char) = 'X'),
      if_neg (fun h => absurd h.1 (by decide)),
      if_neg (by decide : ¬('H' : Char) = 'P'),
      if_neg (by decide : ¬('H' : Char) = 'D'),
      if_neg (by decide : ¬('H' : Char) = 'A'),
      if_neg (fun h => absurd h.1 (by decide))]
  simp

/-- C8: a property predicate pops exactly one value and a double-property
predicate pops exactly two, the second-popped value being the first join
operand; each pushes exactly one result (net stack-length change 0 and -1
respectively), fails with EmptyJoinResult when the join result is falsy,
and in the successful cases the world state and command history are
returned unchanged. -/
theorem prop_double_prop_stack_contract (σ : Type) (port : WorldPort σ)
    (p : String) (hp : p ≠ "") (ws : σ) (hist : List HistEntry)
    (v v1 v2 : SVal) (rest : List SVal) :
    ((port.apply_join ws v p).truthy = true →
      SconeExecutor.apply port ("P" ++ p) ⟨ws, hist, v :: rest⟩ =
        .ok ⟨ws, hist, port.apply_join ws v p :: rest⟩) ∧
    ((port.apply_join ws v p).truthy = false →
      SconeExecutor.apply port ("P" ++ p) ⟨ws, hist, v :: rest⟩ =
        .error .EmptyJoinResult) ∧
    ((port.apply_double_join ws v1 v2 p).truthy = true →
      SconeExecutor.apply port ("D" ++ p) ⟨ws, hist, v2 :: v1 :: rest⟩ =
        .ok ⟨ws, hist, port.apply_double_join ws v1 v2 p :: rest⟩) ∧
    ((port.apply_double_join ws v1 v2 p).truthy = false →
      SconeExecutor.apply port ("D" ++ p) ⟨ws, hist, v2 :: v1 :: rest⟩ =
        .error .EmptyJoinResult) ∧
    (v :: rest).length = (port.apply_join ws v p :: rest).length ∧
    (v2 :: v1 :: rest).length =
      (port.apply_double_join ws v1 v2 p :: rest).length + 1 := by
  refine ⟨fun h => ?_, fun h => ?_, fun h => ?_, fun h => ?_, by simp, by simp⟩
  · rw [apply_prop_step port p hp]; simp [h]
  · rw [apply_prop_step port p hp]; simp [h]
  · rw [apply_dprop_step port p hp]; simp [h]
  · rw [apply_dprop_step port p hp]; simp [h]

/-- Witness for C8 with the sample port at concrete values. -/
theorem prop_double_prop_stack_contract_witness :
    SconeExecutor.apply samplePort "PColor" ⟨0, [], [.vstr "r"]⟩ =
      .ok ⟨0, [], [.vobjs [7]]⟩ ∧
    SconeExecutor.apply samplePort "DShirtHat"
        ⟨0, [], [.vstr "y", .vstr "r"]⟩ = .ok ⟨0, [], [.vobjs [8]]⟩ := by
  have h := prop_double_prop_stack_contract Nat samplePort "Color"
    (by decide) 0 [] (.vstr "r") (.vstr "r") (.vstr "y") []
  have h2 := prop_double_prop_stack_contract Nat samplePort "ShirtHat"
    (by decide) 0 [] (.vstr "r") (.vstr "r") (.vstr "y") []
  exact ⟨h.1 rfl, h2.2.2.1 rfl⟩

/-- C9 (amended): every popping predicate of the bottom-up engine applied
to a stack with fewer values than it pops fails; the failure is the
stack-underflow (pop from empty list) error, which is none of the named
conditions of the spec taxonomy, in every case except one: `index` on a
one-element stack whose sole element is not an integer fails the integer
isinstance assertion first (also an unnamed condition).  In particular a
property predicate on an empty stack never succeeds. -/
theorem popping_predicates_underflow (σ : Type) (port : WorldPort σ)
    (ws : σ) (hist : List HistEntry) :
    (∀ p : String, p ≠ "" →
      SconeExecutor.apply port ("P" ++ p) ⟨ws, hist, []⟩ =
        .error .StackUnderflow) ∧
    (∀ p : String, p ≠ "" →
      SconeExecutor.apply port ("D" ++ p) ⟨ws, hist, []⟩ =
        .error .StackUnderflow) ∧
    (∀ (p : String) (v : SVal), p ≠ "" →
      SconeExecutor.apply port ("D" ++ p) ⟨ws, hist, [v]⟩ =
        .error .StackUnderflow) ∧
    SconeExecutor.apply port "index" ⟨ws, hist, []⟩ =
      .error .StackUnderflow ∧
    (∀ n : Int, SconeExecutor.apply port "index" ⟨ws, hist, [.vint n]⟩ =
      .error .StackUnderflow) ∧
    (∀ v : SVal, (∀ n : Int, v ≠ .vint n) →
      SconeExecutor.apply port "index" ⟨ws, hist, [v]⟩ =
        .error .TypeAssertFailure) ∧
    (∀ (name : String) (cs : List Char), name.data = 'H' :: cs → cs ≠ [] →
      SconeExecutor.apply port name ⟨ws, hist, []⟩ =
        .error .StackUnderflow) ∧
    ExecError.StackUnderflow.isNamedCondition = false ∧
    ExecError.TypeAssertFailure.isNamedCondition = false := by
  refine ⟨fun p hp => ?_, fun p hp => ?_, fun p v hp => ?_, rfl,
    fun n => rfl, fun v hv => ?_, fun name cs hd hcs =>
      apply_hist_empty_stack port name cs hd hcs ws hist, rfl, rfl⟩
  · rw [apply_prop_step port p hp]
  · rw [apply_dprop_step port p hp]
  · rw [apply_dprop_step port p hp]
  · cases v with
    | vint n => exact absurd rfl (hv n)
    | vstr s => rfl
    | vobjs l => rfl
    | vobj o => rfl

/-- C9 counterexample: `index` pops two operands, yet on the one-element
stack holding a string the failure is the isinstance assertion on the
popped number, not the stack-underflow error the claim states. -/
theorem index_single_noninteger_not_underflow :
    SconeExecutor.apply samplePort "index" ⟨0, [], [.vstr "a"]⟩ =
      .error .TypeAssertFailure ∧
    ExecError.TypeAssertFailure ≠ ExecError.StackUnderflow :=
  ⟨rfl, by decide⟩

/-- Witness for C9 at concrete predicates on an empty stack. -/
theorem popping_predicates_underflow_witness :
    SconeExecutor.apply samplePort "PColor" ⟨0, [], []⟩ =
      .error .StackUnderflow ∧
    SconeExecutor.apply samplePort "H1" ⟨0, [], []⟩ =
      .error .StackUnderflow := by
  have h := popping_predicates_underflow Nat samplePort 0 []
  exact ⟨h.1 "Color" (by decide), h.2.2.2.2.2.2.1 "H1" ['1'] rfl (by decide)⟩

theorem pyIndex_zero (l : List α) : pyIndex l 0 = l.head? := by
  cases l <;> rfl

theorem pyIndex_neg_one (l : List α) : pyIndex l (-1) = l.getLast? := by
  unfold pyIndex
  rw [if_neg (by decide)]
  by_cases h : l = []
  · subst h; rfl
  · have hlen : 1 ≤ l.length := List.length_pos.mpr h
    rw [if_pos (by omega : (0 : Int) ≤ -1 + l.length),
        List.getLast?_eq_getElem?, List.get?_eq_getElem?]
    congr 1
    omega

theorem pyIndex_pos_toNat (l : List α) (n : Int) (h : 0 < n) :
    pyIndex l (n - 1) = l.get? (n - 1).toNat := by
  unfold pyIndex
  rw [if_pos (by omega)]

/-- Reduction of the top-down apply at a number token: its parsed value is
fed into the innermost frame. -/
theorem td_apply_number (port : WorldPort σ) (tok : String) (c : Char)
    (csr : List Char) (n : Int) (d : TDDenotVal σ)
    (hdata : tok.data = c :: csr)
    (hnotcolor : ¬(csr = [] ∧ c.isAlpha = true))
    (hnum : c = '-' ∨ c.isDigit = true) (hparse : pyInt? tok = some n) :
    SconeTopDownExecutor.apply port tok d =
      tdFeed port d.world_state d.command_history (.vint n)
        d.execution_stack := by
  simp only [SconeTopDownExecutor.apply, hdata]
  rw [if_neg hnotcolor, if_pos hnum, hparse]

/-- Feeding a value whose readiness check comes back false just appends it
to the innermost frame. -/
theorem tdFeed_not_ready (port : WorldPort σ) (ws : σ)
    (hist : List HistEntry) (v : SVal) (f : Frame) (rest : List Frame)
    (h : SconeTopDownExecutor.check_argument port f v = .ok false) :
    tdFeed port ws hist v (f :: rest) =
      .ok ⟨ws, hist, (f.1, f.2 ++ [v]) :: rest⟩ := by
  unfold tdFeed
  rw [h]
  rfl

/-- C3: in both executors the index operation on an object list L and an
integer n pushes the 1-based n-th element of L when n is positive (so
pyIndex L (n-1) is front indexing) and the end-relative element L[n] when
n is nonpositive; position 0 is the first element and position -1 the
last. -/
theorem index_one_based_and_end_relative (σ : Type) (port : WorldPort σ)
    (ws : σ) (hist : List HistEntry) (L : List Nat) (n : Int) (elem : Nat)
    (rest : List SVal) (fname : String) (fargs : List SVal)
    (tdrest : List Frame) :
    (0 < n → pyIndex L (n - 1) = some elem →
      SconeExecutor.apply port "index" ⟨ws, hist, .vint n :: .vobjs L :: rest⟩ =
        .ok ⟨ws, hist, .vobj elem :: rest⟩) ∧
    (n ≤ 0 → pyIndex L n = some elem →
      SconeExecutor.apply port "index" ⟨ws, hist, .vint n :: .vobjs L :: rest⟩ =
        .ok ⟨ws, hist, .vobj elem :: rest⟩) ∧
    (∀ (tok : String) (c : Char) (csr : List Char),
      tok.data = c :: csr → ¬(csr = [] ∧ c.isAlpha = true) →
      (c = '-' ∨ c.isDigit = true) → pyInt? tok = some n →
      SconeTopDownExecutor.check_argument port (fname, fargs) (.vobj elem) =
        .ok false →
      ((0 < n ∧ pyIndex L (n - 1) = some elem) ∨
        (n ≤ 0 ∧ pyIndex L n = some elem)) →
      SconeTopDownExecutor.apply port tok
          ⟨ws, hist, ("index", [.vobjs L]) :: (fname, fargs) :: tdrest⟩ =
        .ok ⟨ws, hist, (fname, fargs ++ [.vobj elem]) :: tdrest⟩) ∧
    pyIndex L 0 = L.head? ∧
    pyIndex L (-1) = L.getLast? ∧
    (0 < n → pyIndex L (n - 1) = L.get? (n - 1).toNat) := by
  have key : SconeExecutor.apply port "index"
      ⟨ws, hist, .vint n :: .vobjs L :: rest⟩ =
      match pyIndex L (if 0 < n then n - 1 else n) with
      | some x => .ok ⟨ws, hist, .vobj x :: rest⟩
      | none => .error .IndexOutOfRange := rfl
  refine ⟨fun h hsome => ?_, fun h hsome => ?_, ?_, pyIndex_zero L,
    pyIndex_neg_one L, fun h => pyIndex_pos_toNat L n h⟩
  · rw [key, if_pos h, hsome]
  · rw [key, if_neg (not_lt.mpr h), hsome]
  · intro tok c csr hdata hnotcolor hnum hparse hcheck hrange
    rw [td_apply_number port tok c csr n _ hdata hnotcolor hnum hparse]
    have key2 : tdFeed port ws hist (.vint n)
        (("index", [SVal.vobjs L]) :: (fname, fargs) :: tdrest) =
        match pyIndex L (if 0 < n then n - 1 else n) with
        | some x => tdFeed port ws hist (.vobj x) ((fname, fargs) :: tdrest)
        | none => .error .IndexOutOfRange := rfl
    rw [key2]
    rcases hrange with ⟨hpos, hsome⟩ | ⟨hneg, hsome⟩
    · rw [if_pos hpos, hsome]
      exact tdFeed_not_ready port ws hist _ _ _ hcheck
    · rw [if_neg (not_lt.mpr hneg), hsome]
      exact tdFeed_not_ready port ws hist _ _ _ hcheck

/-- Witness for C3 at the list [5, 7]: position 1 gives the first element,
position -1 the last, in both executors. -/
theorem index_one_based_and_end_relative_witness :
    SconeExecutor.apply samplePort "index"
        ⟨0, [], [.vint 1, .vobjs [5, 7]]⟩ = .ok ⟨0, [], [.vobj 5]⟩ ∧
    SconeExecutor.apply samplePort "index"
        ⟨0, [], [.vint (-1), .vobjs [5, 7]]⟩ = .ok ⟨0, [], [.vobj 7]⟩ ∧
    SconeExecutor.apply samplePort "index"
        ⟨0, [], [.vint 0, .vobjs [5, 7]]⟩ = .ok ⟨0, [], [.vobj 5]⟩ ∧
    SconeTopDownExecutor.apply samplePort "1"
        ⟨0, [], [("index", [.vobjs [5, 7]]), ("ATwo", [])]⟩ =
      .ok ⟨0, [], [("ATwo", [.vobj 5])]⟩ := by
  have h1 := index_one_based_and_end_relative Nat samplePort 0 [] [5, 7] 1 5
    [] "ATwo" [] []
  have h2 := index_one_based_and_end_relative Nat samplePort 0 [] [5, 7]
    (-1) 7 [] "ATwo" [] []
  have h3 := index_one_based_and_end_relative Nat samplePort 0 [] [5, 7] 0 5
    [] "ATwo" [] []
  refine ⟨h1.1 (by decide) rfl, h2.2.1 (by decide) rfl,
    h3.2.1 (by decide) rfl, ?_⟩
  exact h1.2.2.1 "1" '1' [] rfl (by decide) (Or.inr (by decide)) rfl rfl
    (Or.inl ⟨by decide, rfl⟩)

theorem string_eq_of_data {s : String} {l : List Char} (h : s.data = l) :
    s = String.mk l := by
  cases s
  cases h
  rfl

/-- A successful apply_action against the live stack is a port act call on
some argument list. -/
theorem applyActionStack_ok_act {port : WorldPort σ} {s : σ} {a : String}
    {stack : List SVal} {r : σ × HistEntry × List SVal}
    (h : port.applyActionStack s a stack = .ok r) :
    ∃ args, port.act s a args = (r.1, r.2.1) := by
  unfold WorldPort.applyActionStack at h
  split at h
  · injection h with h'
    subst h'
    exact ⟨_, rfl⟩
  · exact Except.noConfusion h

/-- Reduction of the bottom-up apply at an action name `A` followed by a
nonempty action string. -/
theorem apply_action_step (port : WorldPort σ) (a : String) (ha : a ≠ "")
    (d : SconeDenotVal σ) :
    SconeExecutor.apply port ("A" ++ a) d =
      match port.applyActionStack d.world_state a d.execution_stack with
      | .ok r => .ok ⟨r.1, d.command_history ++ [r.2.1], r.2.2⟩
      | .error e => .error e := by
  have hd : ("A" ++ a).data = 'A' :: a.data := rfl
  simp only [SconeExecutor.apply, hd]
  rw [if_neg (fun h => ha (string_data_eq_nil.mp h.1)),
      if_neg (by decide : ¬(('A' : Char) = '-' ∨ ('A' : Char).isDigit = true)),
      if_neg (by decide : ¬('A' : Char) = 'X'),
      if_neg (fun h => absurd h.1 (by decide)),
      if_neg (by decide : ¬('A' : Char) = 'P'),
      if_neg (by decide : ¬('A' : Char) = 'D')]
  simp only [string_mk_data]
  simp

/-- Reduction of the bottom-up apply at H0 on a stack whose top is an
integer slot. -/
theorem apply_H0_step (port : WorldPort σ) (ws : σ) (hist : List HistEntry)
    (n : Int) (rest : List SVal) :
    SconeExecutor.apply port "H0" ⟨ws, hist, .vint n :: rest⟩ =
      match pyIndex hist (if 0 < n then n - 1 else n) with
      | none => .error .IndexOutOfRange
      | some command =>
        match pyIndex command 0 with
        | none => .error .IndexOutOfRange
        | some (.vstr a) =>
          match port.applyActionStack ws a rest with
          | .ok r => .ok ⟨r.1, hist ++ [r.2.1], r.2.2⟩
          | .error e => .error e
        | some _ => .error .TypeAssertFailure := rfl

/-- Reduction of the bottom-up apply at HUndo on a stack whose top is an
integer slot. -/
theorem apply_HUndo_step (port : WorldPort σ) (ws : σ)
    (hist : List HistEntry) (n : Int) (rest : List SVal) :
    SconeExecutor.apply port "HUndo" ⟨ws, hist, .vint n :: rest⟩ =
      match pyIndex hist (if 0 < n then n - 1 else n) with
      | none => .error .IndexOutOfRange
      | some command =>
        match pyIndex command 0 with
        | none => .error .IndexOutOfRange
        | some (.vstr a0) =>
          match port.applyActionStack ws (port.reverse_action ws a0) rest with
          | .ok r => .ok ⟨r.1, hist ++ [r.2.1], r.2.2⟩
          | .error e => .error e
        | some _ => .error .TypeAssertFailure := rfl

/-- Reduction of the bottom-up apply at a color name (a single
alphabetic character). -/
theorem apply_color_step (port : WorldPort σ) (name : String) (c : Char)
    (cs : List Char) (d : SconeDenotVal σ) (hdata : name.data = c :: cs)
    (h1 : cs = [] ∧ c.isAlpha = true) :
    SconeExecutor.apply port name d =
      .ok ⟨d.world_state, d.command_history,
        .vstr name :: d.execution_stack⟩ := by
  simp only [SconeExecutor.apply, hdata]
  rw [if_pos h1]

/-- Reduction of the bottom-up apply at a number token. -/
theorem apply_number_step (port : WorldPort σ) (name : String) (c : Char)
    (cs : List Char) (d : SconeDenotVal σ) (hdata : name.data = c :: cs)
    (h1 : ¬(cs = [] ∧ c.isAlpha = true))
    (h2 : c = '-' ∨ c.isDigit = true) :
    SconeExecutor.apply port name d =
      match pyInt? name with
      | some n =>
        .ok ⟨d.world_state, d.command_history,
          .vint n :: d.execution_stack⟩
      | none => .error .ValueParseError := by
  simp only [SconeExecutor.apply, hdata]
  rw [if_neg h1, if_pos h2]

/-- Reduction of the bottom-up apply at a fraction name (leading X); a
lone X is a color but pushes the same literal string. -/
theorem apply_fraction_step (port : WorldPort σ) (name : String)
    (cs : List Char) (d : SconeDenotVal σ)
    (hdata : name.data = 'X' :: cs) :
    SconeExecutor.apply port name d =
      .ok ⟨d.world_state, d.command_history,
        .vstr name :: d.execution_stack⟩ := by
  simp only [SconeExecutor.apply, hdata]
  by_cases hcs : cs = []
  · rw [if_pos ⟨hcs, by decide⟩]
  · rw [if_neg (fun hh => hcs hh.1),
        if_neg (by decide : ¬(('X' : Char) = '-' ∨ ('X' : Char).isDigit = true))]
    simp

/-- The bottom-up apply of index preserves history when it succeeds. -/
theorem apply_index_history (port : WorldPort σ) (ws : σ)
    (hist : List HistEntry) (st : List SVal) (d' : SconeDenotVal σ)
    (h : SconeExecutor.apply port "index" ⟨ws, hist, st⟩ = .ok d') :
    d'.command_history = hist := by
  cases st with
  | nil => exact Except.noConfusion h
  | cons v rest =>
    cases v with
    | vint n =>
      cases rest with
      | nil => exact Except.noConfusion h
      | cons w rest2 =>
        cases w with
        | vobjs objs =>
          have key : SconeExecutor.apply port "index"
              ⟨ws, hist, .vint n :: .vobjs objs :: rest2⟩ =
              match pyIndex objs (if 0 < n then n - 1 else n) with
              | some x => .ok ⟨ws, hist, .vobj x :: rest2⟩
              | none => .error .IndexOutOfRange := rfl
          rw [key] at h
          cases hpy : pyIndex objs (if 0 < n then n - 1 else n) with
          | some x =>
            rw [hpy] at h
            injection h with he
            subst he
            rfl
          | none =>
            rw [hpy] at h
            exact Except.noConfusion h
        | vstr s => exact Except.noConfusion h
        | vint m => exact Except.noConfusion h
        | vobj o => exact Except.noConfusion h
    | vstr s => exact Except.noConfusion h
    | vobjs l => exact Except.noConfusion h
    | vobj o => exact Except.noConfusion h

/-- Reduction of the bottom-up apply at a plain history slot H<k> (not
H0, not HUndo) on a stack whose top is an integer slot number. -/
theorem apply_Hk_step (port : WorldPort σ) (ws : σ)
    (hist : List HistEntry) (n : Int) (rest : List SVal) (name : String)
    (cs : List Char) (hdata : name.data = 'H' :: cs) (hcs : cs ≠ [])
    (h0 : cs ≠ ['0']) (hundo : cs ≠ "Undo".data) :
    SconeExecutor.apply port name ⟨ws, hist, .vint n :: rest⟩ =
      match pyIndex hist (if 0 < n then n - 1 else n) with
      | none => .error .IndexOutOfRange
      | some command =>
        match pyInt? (String.mk cs) with
        | none => .error .ValueParseError
        | some k =>
          match pyIndex command k with
          | none => .error .IndexOutOfRange
          | some (.vint m) => .ok ⟨ws, hist, .vint m :: rest⟩
          | some (.vstr t) => .ok ⟨ws, hist, .vstr t :: rest⟩
          | some (.vobj o) =>
            .ok ⟨ws, hist, port.resolve_argument ws o :: rest⟩
          | some (.vobjs _) => .error .TypeAssertFailure := by
  simp only [SconeExecutor.apply, hdata]
  rw [if_neg (fun hh => hcs hh.1),
      if_neg (by decide : ¬(('H' : Char) = '-' ∨ ('H' : Char).isDigit = true)),
      if_neg (by decide : ¬('H' : Char) = 'X'),
      if_neg (fun hh => absurd hh.1 (by decide)),
      if_neg (by decide : ¬('H' : Char) = 'P'),
      if_neg (by decide : ¬('H' : Char) = 'D'),
      if_neg (by decide : ¬('H' : Char) = 'A'),
      if_neg (fun hh => absurd hh.1 (by decide))]
  simp only [h0, hundo, if_false, ite_false]
  rfl

/-- The bottom-up apply of a history slot on a stack whose top is not an
integer is the isinstance assertion failure. -/
theorem apply_hist_nonint_step (port : WorldPort σ) (ws : σ)
    (hist : List HistEntry) (v : SVal) (rest : List SVal) (name : String)
    (cs : List Char) (hdata : name.data = 'H' :: cs) (hcs : cs ≠ [])
    (hv : ∀ n : Int, v ≠ .vint n) :
    SconeExecutor.apply port name ⟨ws, hist, v :: rest⟩ =
      .error .TypeAssertFailure := by
  simp only [SconeExecutor.apply, hdata]
  rw [if_neg (fun hh => hcs hh.1),
      if_neg (by decide : ¬(('H' : Char) = '-' ∨ ('H' : Char).isDigit = true)),
      if_neg (by decide : ¬('H' : Char) = 'X'),
      if_neg (fun hh => absurd hh.1 (by decide)),
      if_neg (by decide : ¬('H' : Char) = 'P'),
      if_neg (by decide : ¬('H' : Char) = 'D'),
      if_neg (by decide : ¬('H' : Char) = 'A'),
      if_neg (fun hh => absurd hh.1 (by decide))]
  cases v with
  | vint m => exact absurd rfl (hv m)
  | vstr s => rfl
  | vobjs l => rfl
  | vobj o => rfl

/-- The bottom-up apply at a name matching no dispatch rule is the
Unknown predicate error. -/
theorem apply_unknown_step (port : WorldPort σ) (name : String) (c : Char)
    (cs : List Char) (d : SconeDenotVal σ) (hdata : name.data = c :: cs)
    (h1 : ¬(cs = [] ∧ c.isAlpha = true))
    (h2 : ¬(c = '-' ∨ c.isDigit = true)) (h3 : ¬c = 'X')
    (h4 : ¬(c = 'a' ∧ cs = "ll-objects".data)) (h5 : ¬c = 'P')
    (h6 : ¬c = 'D') (h7 : ¬c = 'A')
    (h8 : ¬(c = 'i' ∧ cs = "ndex".data)) (h9 : ¬c = 'H') :
    SconeExecutor.apply port name d = .error (.UnknownPredicate name) := by
  simp only [SconeExecutor.apply, hdata]
  rw [if_neg h1, if_neg h2, if_neg h3, if_neg h4, if_neg h5, if_neg h6,
      if_neg h7, if_neg h8, if_neg h9]

/-- C4: every successful apply step of the bottom-up engine either leaves
the command history exactly as it was or extends it by exactly one entry
(so the prior history list is preserved as is and the length never
decreases), and every successful action step (an A-action, H0, or HUndo)
extends it by exactly one entry whose accompanying world state is the new
state returned by the port act capability. -/
theorem action_steps_extend_history (σ : Type) (port : WorldPort σ)
    (name : String) (d d' : SconeDenotVal σ) :
    (SconeExecutor.apply port name d = .ok d' →
      d'.command_history = d.command_history ∨
        ∃ e, d'.command_history = d.command_history ++ [e]) ∧
    ((∃ rest, rest ≠ [] ∧ name.data = 'A' :: rest) ∨ name = "H0" ∨
        name = "HUndo" →
      SconeExecutor.apply port name d = .ok d' →
      ∃ a args e, port.act d.world_state a args = (d'.world_state, e) ∧
        d'.command_history = d.command_history ++ [e]) := by
  obtain ⟨ws, hist, st⟩ := d
  constructor
  · intro h
    cases hdata : name.data with
    | nil =>
      unfold SconeExecutor.apply at h
      rw [hdata] at h
      exact Except.noConfusion h
    | cons c cs =>
      by_cases h1 : cs = [] ∧ c.isAlpha = true
      · rw [apply_color_step port name c cs _ hdata h1] at h
        injection h with he
        subst he
        exact Or.inl rfl
      · by_cases h2 : c = '-' ∨ c.isDigit = true
        · rw [apply_number_step port name c cs _ hdata h1 h2] at h
          cases hp : pyInt? name with
          | some n =>
            rw [hp] at h
            injection h with he
            subst he
            exact Or.inl rfl
          | none =>
            rw [hp] at h
            exact Except.noConfusion h
        · by_cases h3 : c = 'X'
          · subst h3
            rw [apply_fraction_step port name cs _ hdata] at h
            injection h with he
            subst he
            exact Or.inl rfl
          · by_cases h4 : c = 'a' ∧ cs = "ll-objects".data
            · obtain ⟨rfl, rfl⟩ := h4
              obtain rfl : name = "all-objects" := string_eq_of_data hdata
              injection h with he
              subst he
              exact Or.inl rfl
            · by_cases h5 : c = 'P'
              · subst h5
                obtain rfl : name = "P" ++ String.mk cs := string_eq_of_data hdata
                have hne : String.mk cs ≠ "" := fun hc =>
                  h1 ⟨congrArg String.data hc, by decide⟩
                rw [apply_prop_step port (String.mk cs) hne] at h
                repeat' split at h
                all_goals
                  first
                  | exact Except.noConfusion h
                  | (injection h with he; subst he; exact Or.inl rfl)
              · by_cases h6 : c = 'D'
                · subst h6
                  obtain rfl : name = "D" ++ String.mk cs := string_eq_of_data hdata
                  have hne : String.mk cs ≠ "" := fun hc =>
                    h1 ⟨congrArg String.data hc, by decide⟩
                  rw [apply_dprop_step port (String.mk cs) hne] at h
                  repeat' split at h
                  all_goals
                    first
                    | exact Except.noConfusion h
                    | (injection h with he; subst he; exact Or.inl rfl)
                · by_cases h7 : c = 'A'
                  · subst h7
                    obtain rfl : name = "A" ++ String.mk cs := string_eq_of_data hdata
                    have hne : String.mk cs ≠ "" := fun hc =>
                      h1 ⟨congrArg String.data hc, by decide⟩
                    rw [apply_action_step port (String.mk cs) hne] at h
                    split at h
                    next r hr =>
                      injection h with he
                      subst he
                      exact Or.inr ⟨r.2.1, rfl⟩
                    next e hr => exact Except.noConfusion h
                  · by_cases h8 : c = 'i' ∧ cs = "ndex".data
                    · obtain ⟨rfl, rfl⟩ := h8
                      obtain rfl : name = "index" := string_eq_of_data hdata
                      exact Or.inl (apply_index_history port ws hist st _ h)
                    · by_cases h9 : c = 'H'
                      · subst h9
                        have hcs : cs ≠ [] := fun hc => h1 ⟨hc, by decide⟩
                        cases st with
                        | nil =>
                          rw [apply_hist_empty_stack port name cs hdata hcs
                            ws hist] at h
                          exact Except.noConfusion h
                        | cons v rest =>
                          cases v with
                          | vint n =>
                            by_cases hc0 : cs = ['0']
                            · subst hc0
                              obtain rfl : name = "H0" := string_eq_of_data hdata
                              rw [apply_H0_step] at h
                              repeat' split at h
                              all_goals
                                first
                                | exact Except.noConfusion h
                                | (injection h with he; subst he;
                                   exact Or.inr ⟨_, rfl⟩)
                            · by_cases hcU : cs = "Undo".data
                              · subst hcU
                                obtain rfl : name = "HUndo" :=
                                  string_eq_of_data hdata
                                rw [apply_HUndo_step] at h
                                repeat' split at h
                                all_goals
                                  first
                                  | exact Except.noConfusion h
                                  | (injection h with he; subst he;
                                     exact Or.inr ⟨_, rfl⟩)
                              · rw [apply_Hk_step port ws hist n rest name cs
                                  hdata hcs hc0 hcU] at h
                                repeat' split at h
                                all_goals
                                  first
                                  | exact Except.noConfusion h
                                  | (injection h with he; subst he;
                                     exact Or.inl rfl)
                          | vstr s =>
                            rw [apply_hist_nonint_step port ws hist _ rest
                              name cs hdata hcs (fun n => by simp)] at h
                            exact Except.noConfusion h
                          | vobjs l =>
                            rw [apply_hist_nonint_step port ws hist _ rest
                              name cs hdata hcs (fun n => by simp)] at h
                            exact Except.noConfusion h
                          | vobj o =>
                            rw [apply_hist_nonint_step port ws hist _ rest
                              name cs hdata hcs (fun n => by simp)] at h
                            exact Except.noConfusion h
                      · rw [apply_unknown_step port name c cs _ hdata h1 h2 h3
                          h4 h5 h6 h7 h8 h9] at h
                        exact Except.noConfusion h
  · intro hform h
    rcases hform with ⟨rest, hrest, hd⟩ | h0 | hu
    · obtain rfl : name = "A" ++ String.mk rest := string_eq_of_data hd
      rw [apply_action_step port (String.mk rest)
        (fun hc => hrest (congrArg String.data hc))] at h
      split at h
      next r hr =>
        injection h with he
        subst he
        obtain ⟨args, hact⟩ := applyActionStack_ok_act hr
        exact ⟨String.mk rest, args, r.2.1, hact, rfl⟩
      next e hr => exact Except.noConfusion h
    · subst h0
      cases st with
      | nil => exact Except.noConfusion h
      | cons v rest =>
        cases v with
        | vint n =>
          rw [apply_H0_step] at h
          repeat' split at h
          all_goals
            first
            | exact Except.noConfusion h
            | (rename_i r hr; injection h with he; subst he;
               obtain ⟨args, hact⟩ := applyActionStack_ok_act hr;
               exact ⟨_, args, _, hact, rfl⟩)
        | vstr s => exact Except.noConfusion h
        | vobjs l => exact Except.noConfusion h
        | vobj o => exact Except.noConfusion h
    · subst hu
      cases st with
      | nil => exact Except.noConfusion h
      | cons v rest =>
        cases v with
        | vint n =>
          rw [apply_HUndo_step] at h
          repeat' split at h
          all_goals
            first
            | exact Except.noConfusion h
            | (rename_i r hr; injection h with he; subst he;
               obtain ⟨args, hact⟩ := applyActionStack_ok_act hr;
               exact ⟨_, args, _, hact, rfl⟩)
        | vstr s => exact Except.noConfusion h
        | vobjs l => exact Except.noConfusion h
        | vobj o => exact Except.noConfusion h

/-- Witness for C4 with the sample port: AInc on a one-integer stack
performs act, appends exactly one history entry, and replaces the world
state. -/
theorem action_steps_extend_history_witness :
    SconeExecutor.apply samplePort "AInc" ⟨0, [], [.vint 3]⟩ =
      .ok ⟨1, [[.vstr "Inc", .vint 3]], []⟩ ∧
    ∃ a args e, samplePort.act 0 a args = (1, e) ∧
      [[SVal.vstr "Inc", SVal.vint 3]] = [] ++ [e] := by
  have happ : SconeExecutor.apply samplePort "AInc" ⟨0, [], [.vint 3]⟩ =
      .ok ⟨1, [[.vstr "Inc", .vint 3]], []⟩ := rfl
  exact ⟨happ,
    (action_steps_extend_history Nat samplePort "AInc" ⟨0, [], [.vint 3]⟩
      ⟨1, [[.vstr "Inc", .vint 3]], []⟩).2
      (Or.inl ⟨"Inc".data, by decide, rfl⟩) happ⟩

/-! The class of logical forms expressible both in postfix (bottom-up)
and in pre-order (top-down) token order, with a denotational semantics
used as the common reference point of the two engines. -/

/-- Argument expressions of a logical form: everything except the
top-level action application.  Number and history-slot tokens are carried
verbatim so that parsing stays exactly the executors' parsing. -/
inductive Expr where
  | color (c : Char)
  | num (tok : String)
  | fraction (rest : String)
  | allObjects
  | prop (p : String) (e : Expr)
  | dprop (p : String) (e₁ e₂ : Expr)
  | indexE (el en : Expr)
  | histArg (ktok slotTok : String)
deriving Repr, DecidableEq

/-- The postfix (bottom-up) token sequence of an expression: children
first, then the operator. -/
def Expr.tokensBU : Expr → List String
  | .color c => [String.mk [c]]
  | .num tok => [tok]
  | .fraction rest => ["X" ++ rest]
  | .allObjects => ["all-objects"]
  | .prop p e => e.tokensBU ++ ["P" ++ p]
  | .dprop p e₁ e₂ => e₁.tokensBU ++ (e₂.tokensBU ++ ["D" ++ p])
  | .indexE el en => el.tokensBU ++ (en.tokensBU ++ ["index"])
  | .histArg ktok slotTok => [slotTok, "H" ++ ktok]

/-- The pre-order (top-down) token sequence of an expression: the
operator first, then the children left to right. -/
def Expr.tokensTD : Expr → List String
  | .color c => [String.mk [c]]
  | .num tok => [tok]
  | .fraction rest => ["X" ++ rest]
  | .allObjects => ["all-objects"]
  | .prop p e => ("P" ++ p) :: e.tokensTD
  | .dprop p e₁ e₂ => ("D" ++ p) :: (e₁.tokensTD ++ e₂.tokensTD)
  | .indexE el en => "index" :: (el.tokensTD ++ en.tokensTD)
  | .histArg ktok slotTok => ["H" ++ ktok, slotTok]

/-- Well-formedness of a number token: it dispatches to the number branch
of both engines and parses. -/
def numTokWF (tok : String) : Bool :=
  match tok.data with
  | [] => false
  | c :: cs =>
    decide (c = '-' ∨ c.isDigit = true) &&
      decide (¬(cs = [] ∧ c.isAlpha = true)) && (pyInt? tok).isSome

/-- Structural well-formedness of an expression: each token dispatches to
the intended branch of both engines (a history-slot argument must be a
literal number token, since the top-down argument check of a history
frame rejects anything that is not an integer). -/
def Expr.wf : Expr → Bool
  | .color c => c.isAlpha
  | .num tok => numTokWF tok
  | .fraction _ => true
  | .allObjects => true
  | .prop p e => decide (p ≠ "") && e.wf
  | .dprop p e₁ e₂ => decide (p ≠ "") && e₁.wf && e₂.wf
  | .indexE el en => el.wf && en.wf
  | .histArg ktok slotTok =>
    decide (ktok ≠ "") && decide (ktok ≠ "0") && decide (ktok ≠ "Undo") &&
      numTokWF slotTok

/-- The denotation of an argument expression under a fixed world state
and history (argument evaluation never changes either): the common
reference semantics of the two engines. -/
def evalExpr (port : WorldPort σ) (ws : σ) (hist : List HistEntry) :
    Expr → Except ExecError SVal
  | .color c => .ok (.vstr (String.mk [c]))
  | .num tok =>
    match pyInt? tok with
    | some n => .ok (.vint n)
    | none => .error .ValueParseError
  | .fraction rest => .ok (.vstr ("X" ++ rest))
  | .allObjects => .ok (.vobjs (port.all_objects ws))
  | .prop p e =>
    match evalExpr port ws hist e with
    | .error err => .error err
    | .ok v =>
      if (port.apply_join ws v p).truthy then .ok (port.apply_join ws v p)
      else .error .EmptyJoinResult
  | .dprop p e₁ e₂ =>
    match evalExpr port ws hist e₁ with
    | .error err => .error err
    | .ok v1 =>
      match evalExpr port ws hist e₂ with
      | .error err => .error err
      | .ok v2 =>
        if (port.apply_double_join ws v1 v2 p).truthy then
          .ok (port.apply_double_join ws v1 v2 p)
        else .error .EmptyJoinResult
  | .indexE el en =>
    match evalExpr port ws hist el with
    | .error err => .error err
    | .ok vl =>
      match evalExpr port ws hist en with
      | .error err => .error err
      | .ok vn =>
        match vl with
        | .vobjs objs =>
          match vn with
          | .vint n =>
            match pyIndex objs (if 0 < n then n - 1 else n) with
            | some x => .ok (.vobj x)
            | none => .error .IndexOutOfRange
          | _ => .error .TypeAssertFailure
        | _ => .error .TypeAssertFailure
  | .histArg ktok slotTok =>
    match pyInt? slotTok with
    | none => .error .ValueParseError
    | some n =>
      match pyIndex hist (if 0 < n then n - 1 else n) with
      | none => .error .IndexOutOfRange
      | some command =>
        match pyInt? ktok with
        | none => .error .ValueParseError
        | some k =>
          match pyIndex command k with
          | none => .error .IndexOutOfRange
          | some (.vint m) => .ok (.vint m)
          | some (.vstr t) => .ok (.vstr t)
          | some (.vobj o) => .ok (port.resolve_argument ws o)
          | some (.vobjs _) => .error .TypeAssertFailure

/-- Left-to-right evaluation of an argument list. -/
def evalArgs (port : WorldPort σ) (ws : σ) (hist : List HistEntry) :
    List Expr → Except ExecError (List SVal)
  | [] => .ok []
  | e :: es =>
    match evalExpr port ws hist e with
    | .error err => .error err
    | .ok v =>
      match evalArgs port ws hist es with
      | .error err => .error err
      | .ok vs => .ok (v :: vs)

/-- A statement of a logical form: a top-level action application, a
replay (H0), or an undo (HUndo); the slot of a replay or undo is a
literal number token. -/
inductive Stmt where
  | act (a : String) (args : List Expr)
  | replay (slotTok : String) (args : List Expr)
  | undo (slotTok : String) (args : List Expr)
deriving Repr, DecidableEq

/-- The postfix (bottom-up) token sequence of a statement. -/
def Stmt.tokensBU : Stmt → List String
  | .act a args => (args.map Expr.tokensBU).flatten ++ ["A" ++ a]
  | .replay slotTok args =>
    (args.map Expr.tokensBU).flatten ++ [slotTok, "H0"]
  | .undo slotTok args =>
    (args.map Expr.tokensBU).flatten ++ [slotTok, "HUndo"]

/-- The pre-order (top-down) token sequence of a statement. -/
def Stmt.tokensTD : Stmt → List String
  | .act a args => ("A" ++ a) :: (args.map Expr.tokensTD).flatten
  | .replay slotTok args =>
    "H0" :: slotTok :: (args.map Expr.tokensTD).flatten
  | .undo slotTok args =>
    "HUndo" :: slotTok :: (args.map Expr.tokensTD).flatten

/-- The denotation of a statement: the new world state and history. -/
def evalStmt (port : WorldPort σ) (ws : σ) (hist : List HistEntry) :
    Stmt → Except ExecError (σ × List HistEntry)
  | .act a args =>
    match evalArgs port ws hist args with
    | .error err => .error err
    | .ok vs => .ok ((port.act ws a vs).1, hist ++ [(port.act ws a vs).2])
  | .replay slotTok args =>
    match pyInt? slotTok with
    | none => .error .ValueParseError
    | some n =>
      match pyIndex hist (if 0 < n then n - 1 else n) with
      | none => .error .IndexOutOfRange
      | some command =>
        match pyIndex command 0 with
        | none => .error .IndexOutOfRange
        | some (.vstr a) =>
          match evalArgs port ws hist args with
          | .error err => .error err
          | .ok vs =>
            .ok ((port.act ws a vs).1, hist ++ [(port.act ws a vs).2])
        | some _ => .error .TypeAssertFailure
  | .undo slotTok args =>
    match pyInt? slotTok with
    | none => .error .ValueParseError
    | some n =>
      match pyIndex hist (if 0 < n then n - 1 else n) with
      | none => .error .IndexOutOfRange
      | some command =>
        match pyIndex command 0 with
        | none => .error .IndexOutOfRange
        | some (.vstr a0) =>
          match evalArgs port ws hist args with
          | .error err => .error err
          | .ok vs =>
            .ok ((port.act ws (port.reverse_action ws a0) vs).1,
              hist ++ [(port.act ws (port.reverse_action ws a0) vs).2])
        | some _ => .error .TypeAssertFailure

/-- Dynamic well-formedness of a statement relative to the engines: the
argument expressions are well formed, there is at least one argument (a
zero-argument action frame would never fire in the top-down engine), the
action resolves, and its arity matches the argument count. -/
def stmtOK (port : WorldPort σ) (ws : σ) (hist : List HistEntry) :
    Stmt → Bool
  | .act a args =>
    decide (a ≠ "") && args.all Expr.wf && decide (args ≠ []) &&
      (port.arity a == args.length)
  | .replay slotTok args =>
    numTokWF slotTok && args.all Expr.wf && decide (args ≠ []) &&
      (match pyInt? slotTok with
       | none => false
       | some n =>
         match pyIndex hist (if 0 < n then n - 1 else n) with
         | none => false
         | some command =>
           match pyIndex command 0 with
           | some (.vstr a) => port.arity a == args.length
           | _ => false)
  | .undo slotTok args =>
    numTokWF slotTok && args.all Expr.wf && decide (args ≠ []) &&
      (match pyInt? slotTok with
       | none => false
       | some n =>
         match pyIndex hist (if 0 < n then n - 1 else n) with
         | none => false
         | some command =>
           match pyIndex command 0 with
           | some (.vstr a0) =>
             port.arity (port.reverse_action ws a0) == args.length
           | _ => false)

/-- Dynamic well-formedness of a statement list, threaded through the
reference semantics. -/
def stmtsOK (port : WorldPort σ) : σ → List HistEntry → List Stmt → Bool
  | _, _, [] => true
  | ws, hist, s :: rest =>
    stmtOK port ws hist s &&
      (match evalStmt port ws hist s with
       | .ok (ws2, hist2) => stmtsOK port ws2 hist2 rest
       | .error _ => true)

/-- Reference execution of a statement list. -/
def runStmts (port : WorldPort σ) :
    σ → List HistEntry → List Stmt → Except ExecError (σ × List HistEntry)
  | ws, hist, [] => .ok (ws, hist)
  | ws, hist, s :: rest =>
    match evalStmt port ws hist s with
    | .error e => .error e
    | .ok (ws2, hist2) => runStmts port ws2 hist2 rest

/-- The postfix token sequence of a whole program. -/
def progTokensBU (stmts : List Stmt) : List String :=
  (stmts.map Stmt.tokensBU).flatten

/-- The pre-order token sequence of a whole program. -/
def progTokensTD (stmts : List Stmt) : List String :=
  (stmts.map Stmt.tokensTD).flatten

theorem runBU_append (port : WorldPort σ) (xs ys : List String)
    (d : SconeDenotVal σ) :
    runBU port (xs ++ ys) d =
      match runBU port xs d with
      | .ok d2 => runBU port ys d2
      | .error e => .error e := by
  induction xs generalizing d with
  | nil => rfl
  | cons t ts ih =>
    simp only [List.cons_append, runBU]
    cases h : SconeExecutor.apply port t d with
    | ok d2 => exact ih d2
    | error e => rfl

theorem runTD_append (port : WorldPort σ) (xs ys : List String)
    (d : TDDenotVal σ) :
    runTD port (xs ++ ys) d =
      match runTD port xs d with
      | .ok d2 => runTD port ys d2
      | .error e => .error e := by
  induction xs generalizing d with
  | nil => rfl
  | cons t ts ih =>
    simp only [List.cons_append, runTD]
    cases h : SconeTopDownExecutor.apply port t d with
    | ok d2 => exact ih d2
    | error e => rfl

/-- Unpacking of a well-formed number token. -/
theorem numTokWF_elim {tok : String} (h : numTokWF tok = true) :
    ∃ c cs n, tok.data = c :: cs ∧ (c = '-' ∨ c.isDigit = true) ∧
      ¬(cs = [] ∧ c.isAlpha = true) ∧ pyInt? tok = some n := by
  unfold numTokWF at h
  cases hd : tok.data with
  | nil => rw [hd] at h; exact Bool.noConfusion h
  | cons c cs =>
    rw [hd] at h
    simp only [Bool.and_eq_true, decide_eq_true_eq, Option.isSome_iff_exists]
      at h
    obtain ⟨⟨h1, h2⟩, n, hn⟩ := h
    exact ⟨c, cs, n, rfl, h1, h2, hn⟩

theorem evalArgs_length {port : WorldPort σ} {ws : σ}
    {hist : List HistEntry} {args : List Expr} {vs : List SVal}
    (h : evalArgs port ws hist args = .ok vs) : vs.length = args.length := by
  induction args generalizing vs with
  | nil =>
    injection h with he
    subst he
    rfl
  | cons e es ih =>
    unfold evalArgs at h
    split at h
    · exact Except.noConfusion h
    · split at h
      · exact Except.noConfusion h
      · injection h with he
        subst he
        simp [ih ‹_›]

/-- History argument lookup followed by a push agrees with the lookup
followed by wrapping, innermost level. -/
theorem runBU_histk_push (port : WorldPort σ) (ws : σ)
    (hist : List HistEntry) (command : HistEntry) (k : Int)
    (st : List SVal) :
    (match (match pyIndex command k with
        | none => (Except.error .IndexOutOfRange :
            Except ExecError (SconeDenotVal σ))
        | some (.vint m) => .ok ⟨ws, hist, .vint m :: st⟩
        | some (.vstr t) => .ok ⟨ws, hist, .vstr t :: st⟩
        | some (.vobj o) => .ok ⟨ws, hist, port.resolve_argument ws o :: st⟩
        | some (.vobjs _) => .error .TypeAssertFailure) with
      | Except.ok d2 => runBU port [] d2
      | Except.error e => Except.error e) =
    (match (match pyIndex command k with
        | none => (Except.error .IndexOutOfRange : Except ExecError SVal)
        | some (.vint m) => .ok (.vint m)
        | some (.vstr t) => .ok (.vstr t)
        | some (.vobj o) => .ok (port.resolve_argument ws o)
        | some (.vobjs _) => .error .TypeAssertFailure) with
      | Except.ok v => Except.ok (⟨ws, hist, v :: st⟩ : SconeDenotVal σ)
      | Except.error err => Except.error err) := by
  cases pyIndex command k with
  | none => rfl
  | some arg => cases arg <;> rfl

/-- History argument lookup, middle level: the slot-name parse. -/
theorem runBU_histcmd_push (port : WorldPort σ) (ws : σ)
    (hist : List HistEntry) (command : HistEntry) (ktok : String)
    (st : List SVal) :
    (match (match pyInt? ktok with
        | none => (Except.error .ValueParseError :
            Except ExecError (SconeDenotVal σ))
        | some k =>
          match pyIndex command k with
          | none => .error .IndexOutOfRange
          | some (.vint m) => .ok ⟨ws, hist, .vint m :: st⟩
          | some (.vstr t) => .ok ⟨ws, hist, .vstr t :: st⟩
          | some (.vobj o) => .ok ⟨ws, hist, port.resolve_argument ws o :: st⟩
          | some (.vobjs _) => .error .TypeAssertFailure) with
      | Except.ok d2 => runBU port [] d2
      | Except.error e => Except.error e) =
    (match (match pyInt? ktok with
        | none => (Except.error .ValueParseError : Except ExecError SVal)
        | some k =>
          match pyIndex command k with
          | none => .error .IndexOutOfRange
          | some (.vint m) => .ok (.vint m)
          | some (.vstr t) => .ok (.vstr t)
          | some (.vobj o) => .ok (port.resolve_argument ws o)
          | some (.vobjs _) => .error .TypeAssertFailure) with
      | Except.ok v => Except.ok (⟨ws, hist, v :: st⟩ : SconeDenotVal σ)
      | Except.error err => Except.error err) := by
  cases pyInt? ktok with
  | none => rfl
  | some k => exact runBU_histk_push port ws hist command k st

/-- History argument lookup, outer level: the history entry fetch. -/
theorem runBU_hist_push (port : WorldPort σ) (ws : σ)
    (hist : List HistEntry) (X : Int) (ktok : String) (st : List SVal) :
    (match (match pyIndex hist X with
        | none => (Except.error .IndexOutOfRange :
            Except ExecError (SconeDenotVal σ))
        | some command =>
          match pyInt? ktok with
          | none => .error .ValueParseError
          | some k =>
            match pyIndex command k with
            | none => .error .IndexOutOfRange
            | some (.vint m) => .ok ⟨ws, hist, .vint m :: st⟩
            | some (.vstr t) => .ok ⟨ws, hist, .vstr t :: st⟩
            | some (.vobj o) =>
              .ok ⟨ws, hist, port.resolve_argument ws o :: st⟩
            | some (.vobjs _) => .error .TypeAssertFailure) with
      | Except.ok d2 => runBU port [] d2
      | Except.error e => Except.error e) =
    (match (match pyIndex hist X with
        | none => (Except.error .IndexOutOfRange : Except ExecError SVal)
        | some command =>
          match pyInt? ktok with
          | none => .error .ValueParseError
          | some k =>
            match pyIndex command k with
            | none => .error .IndexOutOfRange
            | some (.vint m) => .ok (.vint m)
            | some (.vstr t) => .ok (.vstr t)
            | some (.vobj o) => .ok (port.resolve_argument ws o)
            | some (.vobjs _) => .error .TypeAssertFailure) with
      | Except.ok v => Except.ok (⟨ws, hist, v :: st⟩ : SconeDenotVal σ)
      | Except.error err => Except.error err) := by
  cases pyIndex hist X with
  | none => rfl
  | some command => exact runBU_histcmd_push port ws hist command ktok st

/-- Reduction of the bottom-up apply at a property name on a nonempty
stack. -/
theorem apply_prop_cons (port : WorldPort σ) (p : String) (hp : p ≠ "")
    (ws : σ) (hist : List HistEntry) (v : SVal) (rest : List SVal) :
    SconeExecutor.apply port ("P" ++ p) ⟨ws, hist, v :: rest⟩ =
      if (port.apply_join ws v p).truthy then
        .ok ⟨ws, hist, port.apply_join ws v p :: rest⟩
      else .error .EmptyJoinResult := by
  rw [apply_prop_step port p hp]

/-- Reduction of the bottom-up apply at a double-property name on a stack
with at least two values. -/
theorem apply_dprop_cons (port : WorldPort σ) (p : String) (hp : p ≠ "")
    (ws : σ) (hist : List HistEntry) (v2 v1 : SVal) (rest : List SVal) :
    SconeExecutor.apply port ("D" ++ p) ⟨ws, hist, v2 :: v1 :: rest⟩ =
      if (port.apply_double_join ws v1 v2 p).truthy then
        .ok ⟨ws, hist, port.apply_double_join ws v1 v2 p :: rest⟩
      else .error .EmptyJoinResult := by
  rw [apply_dprop_step port p hp]

/-- The bottom-up engine evaluates the postfix token sequence of a
well-formed expression to its denotation pushed onto the stack, with the
world state and history untouched; failures agree exactly. -/
theorem runBU_expr (port : WorldPort σ) (e : Expr) (hwf : e.wf = true)
    (ws : σ) (hist : List HistEntry) (st : List SVal) :
    runBU port e.tokensBU ⟨ws, hist, st⟩ =
      match evalExpr port ws hist e with
      | .ok v => .ok ⟨ws, hist, v :: st⟩
      | .error err => .error err := by
  induction e generalizing st with
  | color c =>
    have hc : c.isAlpha = true := hwf
    simp only [Expr.tokensBU, runBU]
    rw [apply_color_step port (String.mk [c]) c [] _ rfl ⟨rfl, hc⟩]
    rfl
  | num tok =>
    obtain ⟨c, cs, n, hd, hnum, hnotcolor, hn⟩ := numTokWF_elim hwf
    simp only [Expr.tokensBU, runBU, evalExpr]
    rw [apply_number_step port tok c cs _ hd hnotcolor hnum, hn]
  | fraction rest =>
    simp only [Expr.tokensBU, runBU]
    rw [apply_fraction_step port ("X" ++ rest) rest.data _ rfl]
    rfl
  | allObjects => rfl
  | prop p e ih =>
    simp only [Expr.wf, Bool.and_eq_true, decide_eq_true_eq] at hwf
    obtain ⟨hp, he⟩ := hwf
    simp only [Expr.tokensBU]
    rw [runBU_append, ih he st]
    cases hv : evalExpr port ws hist e with
    | error err => simp only [evalExpr, hv]
    | ok v =>
      simp only [evalExpr, hv]
      show runBU port ["P" ++ p] ⟨ws, hist, v :: st⟩ = _
      simp only [runBU]
      rw [apply_prop_cons port p hp]
      by_cases ht : (port.apply_join ws v p).truthy = true
      · rw [if_pos ht, if_pos ht]
      · rw [if_neg ht, if_neg ht]
  | dprop p e₁ e₂ ih₁ ih₂ =>
    simp only [Expr.wf, Bool.and_eq_true, decide_eq_true_eq] at hwf
    obtain ⟨⟨hp, he₁⟩, he₂⟩ := hwf
    simp only [Expr.tokensBU]
    rw [runBU_append, ih₁ he₁ st]
    cases hv₁ : evalExpr port ws hist e₁ with
    | error err => simp only [evalExpr, hv₁]
    | ok v1 =>
      simp only [evalExpr, hv₁]
      show runBU port (Expr.tokensBU e₂ ++ ["D" ++ p]) ⟨ws, hist, v1 :: st⟩ = _
      rw [runBU_append, ih₂ he₂ (v1 :: st)]
      cases hv₂ : evalExpr port ws hist e₂ with
      | error err => simp only [hv₂]
      | ok v2 =>
        simp only [hv₂]
        show runBU port ["D" ++ p] ⟨ws, hist, v2 :: v1 :: st⟩ = _
        simp only [runBU]
        rw [apply_dprop_cons port p hp]
        by_cases ht : (port.apply_double_join ws v1 v2 p).truthy = true
        · rw [if_pos ht, if_pos ht]
        · rw [if_neg ht, if_neg ht]
  | indexE el en ih₁ ih₂ =>
    simp only [Expr.wf, Bool.and_eq_true] at hwf
    obtain ⟨he₁, he₂⟩ := hwf
    simp only [Expr.tokensBU]
    rw [runBU_append, ih₁ he₁ st]
    cases hv₁ : evalExpr port ws hist el with
    | error err => simp only [evalExpr, hv₁]
    | ok vl =>
      simp only [evalExpr, hv₁]
      show runBU port (Expr.tokensBU en ++ ["index"]) ⟨ws, hist, vl :: st⟩ = _
      rw [runBU_append, ih₂ he₂ (vl :: st)]
      cases hv₂ : evalExpr port ws hist en with
      | error err => simp only [hv₂]
      | ok vn =>
        simp only [hv₂]
        show runBU port ["index"] ⟨ws, hist, vn :: vl :: st⟩ = _
        cases vl with
        | vobjs objs =>
          cases vn with
          | vint n =>
            show (match SconeExecutor.apply port "index"
                ⟨ws, hist, .vint n :: .vobjs objs :: st⟩ with
              | .ok d2 => runBU port [] d2
              | .error e => .error e) = _
            have key : SconeExecutor.apply port "index"
                ⟨ws, hist, .vint n :: .vobjs objs :: st⟩ =
                match pyIndex objs (if 0 < n then n - 1 else n) with
                | some x => .ok ⟨ws, hist, .vobj x :: st⟩
                | none => .error .IndexOutOfRange := rfl
            show _ = (match (match pyIndex objs (if 0 < n then n - 1 else n)
                with
              | some x => Except.ok (SVal.vobj x)
              | none => Except.error ExecError.IndexOutOfRange) with
              | Except.ok v =>
                Except.ok (⟨ws, hist, v :: st⟩ : SconeDenotVal σ)
              | Except.error err => Except.error err)
            rw [key]
            cases hpy : pyIndex objs (if 0 < n then n - 1 else n) with
            | some x => rfl
            | none => rfl
          | vstr s => rfl
          | vobjs l => rfl
          | vobj o => rfl
        | vstr s => cases vn <;> rfl
        | vint m => cases vn <;> rfl
        | vobj o => cases vn <;> rfl
  | histArg ktok slotTok =>
    simp only [Expr.wf, Bool.and_eq_true, decide_eq_true_eq] at hwf
    obtain ⟨⟨⟨hk1, hk0⟩, hkU⟩, hslot⟩ := hwf
    obtain ⟨c, cs, n, hd, hnum, hnotcolor, hn⟩ := numTokWF_elim hslot
    simp only [Expr.tokensBU, runBU, evalExpr]
    rw [apply_number_step port slotTok c cs _ hd hnotcolor hnum, hn]
    have hkcs : ktok.data ≠ [] := fun hc => hk1 (string_data_eq_nil.mp hc)
    have hkcs0 : ktok.data ≠ ['0'] := fun hc => hk0 (string_eq_of_data hc)
    have hkcsU : ktok.data ≠ "Undo".data := fun hc =>
      hkU (string_eq_of_data hc)
    show (match SconeExecutor.apply port ("H" ++ ktok)
        ⟨ws, hist, .vint n :: st⟩ with
      | .ok d2 => runBU port [] d2
      | .error e => .error e) = _
    rw [apply_Hk_step port ws hist n st ("H" ++ ktok) ktok.data rfl hkcs
      hkcs0 hkcsU, string_mk_data]
    exact runBU_hist_push port ws hist (if 0 < n then n - 1 else n) ktok st

/-- The bottom-up engine evaluates the concatenated postfix token
sequences of a well-formed argument list by pushing the argument values
in order (so they end up reversed on the stack). -/
theorem runBU_args (port : WorldPort σ) (args : List Expr)
    (hwf : args.all Expr.wf = true) (ws : σ) (hist : List HistEntry)
    (st : List SVal) :
    runBU port (args.map Expr.tokensBU).flatten ⟨ws, hist, st⟩ =
      match evalArgs port ws hist args with
      | .ok vs => .ok ⟨ws, hist, vs.reverse ++ st⟩
      | .error err => .error err := by
  induction args generalizing st with
  | nil => rfl
  | cons e es ih =>
    simp only [List.all_cons, Bool.and_eq_true] at hwf
    obtain ⟨he, hes⟩ := hwf
    simp only [List.map_cons, List.flatten_cons]
    rw [runBU_append, runBU_expr port e he ws hist st]
    cases hv : evalExpr port ws hist e with
    | error err => simp only [evalArgs, hv]
    | ok v =>
      simp only [evalArgs, hv]
      rw [ih hes (v :: st)]
      cases hvs : evalArgs port ws hist es with
      | error err => rfl
      | ok vs =>
        simp only [List.reverse_cons, List.append_assoc, List.cons_append,
          List.nil_append]

/-- Applying an action against a stack holding exactly the reversed
argument values on top consumes them and calls the act capability on the
values in order. -/
theorem applyActionStack_reverse (port : WorldPort σ) (ws : σ)
    (a : String) (vs rest : List SVal)
    (harity : port.arity a = vs.length) :
    port.applyActionStack ws a (vs.reverse ++ rest) =
      .ok ((port.act ws a vs).1, (port.act ws a vs).2, rest) := by
  unfold WorldPort.applyActionStack
  rw [harity, if_pos (by simp)]
  rw [show vs.length = vs.reverse.length from (List.length_reverse vs).symm,
    List.take_left, List.drop_left, List.reverse_reverse]

/-- The bottom-up engine executes the postfix token sequence of a
well-formed statement from an empty stack to the statement denotation,
ending with an empty stack; failures agree exactly. -/
theorem runBU_stmt (port : WorldPort σ) (ws : σ) (hist : List HistEntry)
    (s : Stmt) (hok : stmtOK port ws hist s = true) :
    runBU port s.tokensBU ⟨ws, hist, []⟩ =
      match evalStmt port ws hist s with
      | .ok (ws2, hist2) => .ok ⟨ws2, hist2, []⟩
      | .error err => .error err := by
  cases s with
  | act a args =>
    simp only [stmtOK, Bool.and_eq_true, decide_eq_true_eq, beq_iff_eq]
      at hok
    obtain ⟨⟨⟨ha, hargs⟩, hne⟩, harity⟩ := hok
    simp only [Stmt.tokensBU]
    rw [runBU_append, runBU_args port args hargs ws hist []]
    cases hvs : evalArgs port ws hist args with
    | error err => simp only [evalStmt, hvs]
    | ok vs =>
      simp only [evalStmt, hvs]
      show (match SconeExecutor.apply port ("A" ++ a)
          ⟨ws, hist, vs.reverse ++ []⟩ with
        | .ok d2 => runBU port [] d2
        | .error e => .error e) = _
      rw [apply_action_step port a ha]
      show (match (match port.applyActionStack ws a (vs.reverse ++ []) with
          | .ok r =>
            (.ok ⟨r.1, hist ++ [r.2.1], r.2.2⟩ :
              Except ExecError (SconeDenotVal σ))
          | .error e => .error e) with
        | Except.ok d2 => runBU port [] d2
        | Except.error e => Except.error e) = _
      rw [applyActionStack_reverse port ws a vs []
        (harity.trans (evalArgs_length hvs).symm)]
      rfl
  | replay slotTok args =>
    simp only [stmtOK, Bool.and_eq_true, decide_eq_true_eq] at hok
    obtain ⟨⟨⟨hslot, hargs⟩, hne⟩, hres⟩ := hok
    obtain ⟨c, cs, n, hd, hnum, hnotcolor, hn⟩ := numTokWF_elim hslot
    simp only [hn] at hres
    cases hcmd : pyIndex hist (if 0 < n then n - 1 else n) with
    | none => rw [hcmd] at hres; exact Bool.noConfusion hres
    | some command =>
      simp only [hcmd] at hres
      cases ha0 : pyIndex command 0 with
      | none => rw [ha0] at hres; exact Bool.noConfusion hres
      | some v0 =>
        simp only [ha0] at hres
        cases v0 with
        | vint m => exact Bool.noConfusion hres
        | vobjs l => exact Bool.noConfusion hres
        | vobj o => exact Bool.noConfusion hres
        | vstr a =>
          have harity : port.arity a = args.length := by
            simpa using hres
          simp only [Stmt.tokensBU]
          rw [runBU_append, runBU_args port args hargs ws hist []]
          cases hvs : evalArgs port ws hist args with
          | error err => simp only [evalStmt, hn, hcmd, ha0, hvs]
          | ok vs =>
            simp only [evalStmt, hn, hcmd, ha0, hvs]
            show (match SconeExecutor.apply port slotTok
                ⟨ws, hist, vs.reverse ++ []⟩ with
              | .ok d2 => runBU port ["H0"] d2
              | .error e => .error e) = _
            rw [apply_number_step port slotTok c cs _ hd hnotcolor hnum, hn]
            show (match SconeExecutor.apply port "H0"
                ⟨ws, hist, .vint n :: (vs.reverse ++ [])⟩ with
              | .ok d2 => runBU port [] d2
              | .error e => .error e) = _
            rw [apply_H0_step port ws hist n (vs.reverse ++ [])]
            simp only [hcmd, ha0]
            rw [applyActionStack_reverse port ws a vs []
              (harity.trans (evalArgs_length hvs).symm)]
            rfl
  | undo slotTok args =>
    simp only [stmtOK, Bool.and_eq_true, decide_eq_true_eq] at hok
    obtain ⟨⟨⟨hslot, hargs⟩, hne⟩, hres⟩ := hok
    obtain ⟨c, cs, n, hd, hnum, hnotcolor, hn⟩ := numTokWF_elim hslot
    simp only [hn] at hres
    cases hcmd : pyIndex hist (if 0 < n then n - 1 else n) with
    | none => rw [hcmd] at hres; exact Bool.noConfusion hres
    | some command =>
      simp only [hcmd] at hres
      cases ha0 : pyIndex command 0 with
      | none => rw [ha0] at hres; exact Bool.noConfusion hres
      | some v0 =>
        simp only [ha0] at hres
        cases v0 with
        | vint m => exact Bool.noConfusion hres
        | vobjs l => exact Bool.noConfusion hres
        | vobj o => exact Bool.noConfusion hres
        | vstr a0 =>
          have harity : port.arity (port.reverse_action ws a0) =
              args.length := by
            simpa using hres
          simp only [Stmt.tokensBU]
          rw [runBU_append, runBU_args port args hargs ws hist []]
          cases hvs : evalArgs port ws hist args with
          | error err => simp only [evalStmt, hn, hcmd, ha0, hvs]
          | ok vs =>
            simp only [evalStmt, hn, hcmd, ha0, hvs]
            show (match SconeExecutor.apply port slotTok
                ⟨ws, hist, vs.reverse ++ []⟩ with
              | .ok d2 => runBU port ["HUndo"] d2
              | .error e => .error e) = _
            rw [apply_number_step port slotTok c cs _ hd hnotcolor hnum, hn]
            show (match SconeExecutor.apply port "HUndo"
                ⟨ws, hist, .vint n :: (vs.reverse ++ [])⟩ with
              | .ok d2 => runBU port [] d2
              | .error e => .error e) = _
            rw [apply_HUndo_step port ws hist n (vs.reverse ++ [])]
            simp only [hcmd, ha0]
            rw [applyActionStack_reverse port ws (port.reverse_action ws a0)
              vs [] (harity.trans (evalArgs_length hvs).symm)]
            rfl

/-- The bottom-up engine executes the postfix token sequence of a dynamic
well-formed statement list to the reference run; failures agree. -/
theorem runBU_stmts (port : WorldPort σ) (stmts : List Stmt) :
    ∀ ws hist, stmtsOK port ws hist stmts = true →
      runBU port (progTokensBU stmts) ⟨ws, hist, []⟩ =
        match runStmts port ws hist stmts with
        | .ok (ws2, hist2) => .ok ⟨ws2, hist2, []⟩
        | .error err => .error err := by
  induction stmts with
  | nil => intro ws hist _; rfl
  | cons s rest ih =>
    intro ws hist hok
    simp only [stmtsOK, Bool.and_eq_true] at hok
    obtain ⟨hs, hrest⟩ := hok
    simp only [progTokensBU, List.map_cons, List.flatten_cons]
    rw [runBU_append, runBU_stmt port ws hist s hs]
    cases hev : evalStmt port ws hist s with
    | error err => simp only [runStmts, hev]
    | ok p =>
      obtain ⟨ws2, hist2⟩ := p
      rw [hev] at hrest
      simp only [runStmts, hev]
      exact ih ws2 hist2 hrest

/-- Two strings with different first characters are different. -/
theorem ne_of_data_head {s t : String} {c d : Char} {cs ds : List Char}
    (hs : s.data = c :: cs) (ht : t.data = d :: ds) (h : c ≠ d) : s ≠ t := by
  intro he
  rw [he, ht] at hs
  exact h (List.cons.inj hs).1.symm

/-- A one-token run of the top-down loop is a single apply. -/
theorem runTD_single (port : WorldPort σ) (t : String)
    (d : TDDenotVal σ) :
    runTD port [t] d = SconeTopDownExecutor.apply port t d := by
  simp only [runTD]
  cases SconeTopDownExecutor.apply port t d <;> rfl

/-- The readiness check of a property frame counts to one. -/
theorem check_argument_prop (port : WorldPort σ) (p : String)
    (acc : List SVal) (v : SVal) :
    SconeTopDownExecutor.check_argument port ("P" ++ p, acc) v =
      .ok (acc.length + 1 == 1) := by
  unfold SconeTopDownExecutor.check_argument
  rw [if_neg (ne_of_data_head (rfl : ("P" ++ p).data = 'P' :: p.data)
    (rfl : "index".data = 'i' :: "ndex".data) (by decide))]
  rfl

/-- The readiness check of a double-property frame counts to two. -/
theorem check_argument_dprop (port : WorldPort σ) (p : String)
    (acc : List SVal) (v : SVal) :
    SconeTopDownExecutor.check_argument port ("D" ++ p, acc) v =
      .ok (acc.length + 1 == 2) := by
  unfold SconeTopDownExecutor.check_argument
  rw [if_neg (ne_of_data_head (rfl : ("D" ++ p).data = 'D' :: p.data)
    (rfl : "index".data = 'i' :: "ndex".data) (by decide))]
  rfl

/-- The readiness check of an action frame counts to the action arity. -/
theorem check_argument_action (port : WorldPort σ) (a : String)
    (acc : List SVal) (v : SVal) :
    SconeTopDownExecutor.check_argument port ("A" ++ a, acc) v =
      .ok (acc.length + 1 == port.arity a) := by
  unfold SconeTopDownExecutor.check_argument
  rw [if_neg (ne_of_data_head (rfl : ("A" ++ a).data = 'A' :: a.data)
    (rfl : "index".data = 'i' :: "ndex".data) (by decide))]
  rfl

/-- The readiness check of a history frame on an integer counts to one. -/
theorem check_argument_hist (port : WorldPort σ) (ktok : String)
    (acc : List SVal) (n : Int) :
    SconeTopDownExecutor.check_argument port ("H" ++ ktok, acc) (.vint n) =
      .ok (acc.length + 1 == 1) := by
  unfold SconeTopDownExecutor.check_argument
  rw [if_neg (ne_of_data_head (rfl : ("H" ++ ktok).data = 'H' :: ktok.data)
    (rfl : "index".data = 'i' :: "ndex".data) (by decide))]
  rfl

/-- When the top frame is not empty-named and not a history frame, the
readiness check never fails. -/
theorem check_argument_nonH_ok (port : WorldPort σ) (f : Frame) (v : SVal)
    (c0 : Char) (cs0 : List Char) (hf : f.1.data = c0 :: cs0)
    (hc0 : c0 ≠ 'H') :
    ∃ b, SconeTopDownExecutor.check_argument port f v = .ok b := by
  by_cases hidx : f.1 = "index"
  · exact ⟨f.2.length + 1 == 2, by
      simp only [SconeTopDownExecutor.check_argument]
      rw [if_pos hidx]⟩
  · exact ⟨port.state_check_argument f.1 (f.2.length + 1), by
      simp only [SconeTopDownExecutor.check_argument]
      rw [if_neg hidx]
      simp only [hf]
      rw [if_neg hc0]⟩

/-- Opening a function frame (P, D, H with a slot name, or index) on a
nonempty stack whose top frame is not a history frame pushes a fresh
frame for the function. -/
theorem td_open_function (port : WorldPort σ) (name : String) (c : Char)
    (cs : List Char) (hdata : name.data = c :: cs)
    (hnotcolor : ¬(cs = [] ∧ c.isAlpha = true))
    (hnotnum : ¬(c = '-' ∨ c.isDigit = true))
    (hnotX : ¬c = 'X') (hnotall : ¬(c = 'a' ∧ cs = "ll-objects".data))
    (hnotact : ¬(c = 'A' ∨ (c = 'H' ∧ cs = ['0']) ∨
      (c = 'H' ∧ cs = "Undo".data)))
    (hfun : c = 'P' ∨ c = 'D' ∨ c = 'A' ∨ c = 'H' ∨
      (c = 'i' ∧ cs = "ndex".data))
    (ws : σ) (hist : List HistEntry) (f : Frame) (rest : List Frame)
    (c0 : Char) (cs0 : List Char) (hf : f.1.data = c0 :: cs0)
    (hc0 : c0 ≠ 'H') :
    SconeTopDownExecutor.apply port name ⟨ws, hist, f :: rest⟩ =
      .ok ⟨ws, hist, (name, []) :: f :: rest⟩ := by
  obtain ⟨b, hb⟩ := check_argument_nonH_ok port f (.vstr name) c0 cs0 hf hc0
  simp only [SconeTopDownExecutor.apply, hdata]
  rw [if_neg hnotcolor, if_neg hnotnum, if_neg hnotX, if_neg hnotall,
    if_neg hnotact, if_pos hfun]
  show (match SconeTopDownExecutor.check_argument port f (.vstr name) with
    | .error e => (.error e : Except ExecError (TDDenotVal σ))
    | .ok _ => .ok ⟨ws, hist, (name, []) :: f :: rest⟩) = _
  rw [hb]

/-- Feeding the argument of a property frame fires the join. -/
theorem tdFeed_prop (port : WorldPort σ) (ws : σ) (hist : List HistEntry)
    (p : String) (v : SVal) (rest : List Frame) :
    tdFeed port ws hist v (("P" ++ p, []) :: rest) =
      if (port.apply_join ws v p).truthy then
        tdFeed port ws hist (port.apply_join ws v p) rest
      else .error .EmptyJoinResult := by
  conv_lhs => unfold tdFeed
  rw [check_argument_prop port p [] v]
  rfl

/-- Feeding the first argument of a double-property frame appends it. -/
theorem tdFeed_dprop1 (port : WorldPort σ) (ws : σ)
    (hist : List HistEntry) (p : String) (v : SVal) (rest : List Frame) :
    tdFeed port ws hist v (("D" ++ p, []) :: rest) =
      .ok ⟨ws, hist, ("D" ++ p, [v]) :: rest⟩ :=
  tdFeed_not_ready port ws hist v ("D" ++ p, []) rest
    ((check_argument_dprop port p [] v).trans rfl)

/-- Feeding the second argument of a double-property frame fires the
double join. -/
theorem tdFeed_dprop2 (port : WorldPort σ) (ws : σ)
    (hist : List HistEntry) (p : String) (v1 v2 : SVal)
    (rest : List Frame) :
    tdFeed port ws hist v2 (("D" ++ p, [v1]) :: rest) =
      if (port.apply_double_join ws v1 v2 p).truthy then
        tdFeed port ws hist (port.apply_double_join ws v1 v2 p) rest
      else .error .EmptyJoinResult := by
  conv_lhs => unfold tdFeed
  rw [check_argument_dprop port p [v1] v2]
  rfl

/-- Feeding the object-list argument of an index frame appends it. -/
theorem tdFeed_index1 (port : WorldPort σ) (ws : σ)
    (hist : List HistEntry) (v : SVal) (rest : List Frame) :
    tdFeed port ws hist v (("index", []) :: rest) =
      .ok ⟨ws, hist, ("index", [v]) :: rest⟩ := rfl

/-- Feeding the position argument of an index frame fires the lookup. -/
theorem tdFeed_index2 (port : WorldPort σ) (ws : σ)
    (hist : List HistEntry) (vl vn : SVal) (rest : List Frame) :
    tdFeed port ws hist vn (("index", [vl]) :: rest) =
      match (match vl with
        | .vobjs objs =>
          match vn with
          | .vint n =>
            match pyIndex objs (if 0 < n then n - 1 else n) with
            | some x => (.ok (.vobj x) : Except ExecError SVal)
            | none => .error .IndexOutOfRange
          | _ => .error .TypeAssertFailure
        | _ => .error .TypeAssertFailure) with
      | .ok v => tdFeed port ws hist v rest
      | .error err => .error err := by
  cases vl with
  | vobjs objs =>
    cases vn with
    | vint n =>
      show (match pyIndex objs (if 0 < n then n - 1 else n) with
        | some x => tdFeed port ws hist (.vobj x) rest
        | none =>
          (.error .IndexOutOfRange : Except ExecError (TDDenotVal σ))) =
        (match (match pyIndex objs (if 0 < n then n - 1 else n) with
          | some x => (.ok (.vobj x) : Except ExecError SVal)
          | none => .error .IndexOutOfRange) with
        | .ok v => tdFeed port ws hist v rest
        | .error err => .error err)
      cases pyIndex objs (if 0 < n then n - 1 else n) with
      | some x => rfl
      | none => rfl
    | vstr s => rfl
    | vobjs l => rfl
    | vobj o => rfl
  | vstr s => rfl
  | vint m => rfl
  | vobj o => rfl

/-- History argument lookup fed back into the remaining frames, innermost
level. -/
theorem tdHistk_feed_push (port : WorldPort σ) (ws : σ)
    (hist : List HistEntry) (command : HistEntry) (k : Int)
    (rest : List Frame) :
    (match pyIndex command k with
      | none => (.error .IndexOutOfRange : Except ExecError (TDDenotVal σ))
      | some (.vint m) => tdFeed port ws hist (.vint m) rest
      | some (.vstr t) => tdFeed port ws hist (.vstr t) rest
      | some (.vobj o) => tdFeed port ws hist (port.resolve_argument ws o) rest
      | some (.vobjs _) => .error .TypeAssertFailure) =
    (match (match pyIndex command k with
      | none => (.error .IndexOutOfRange : Except ExecError SVal)
      | some (.vint m) => .ok (.vint m)
      | some (.vstr t) => .ok (.vstr t)
      | some (.vobj o) => .ok (port.resolve_argument ws o)
      | some (.vobjs _) => .error .TypeAssertFailure) with
      | .ok v => tdFeed port ws hist v rest
      | .error err => .error err) := by
  cases pyIndex command k with
  | none => rfl
  | some arg => cases arg <;> rfl

/-- History argument lookup fed back, middle level: the slot parse. -/
theorem tdHist_feed_push (port : WorldPort σ) (ws : σ)
    (hist : List HistEntry) (command : HistEntry) (ktok : String)
    (rest : List Frame) :
    (match pyInt? ktok with
      | none => (.error .ValueParseError : Except ExecError (TDDenotVal σ))
      | some k =>
        match pyIndex command k with
        | none => .error .IndexOutOfRange
        | some (.vint m) => tdFeed port ws hist (.vint m) rest
        | some (.vstr t) => tdFeed port ws hist (.vstr t) rest
        | some (.vobj o) =>
          tdFeed port ws hist (port.resolve_argument ws o) rest
        | some (.vobjs _) => .error .TypeAssertFailure) =
    (match (match pyInt? ktok with
      | none => (.error .ValueParseError : Except ExecError SVal)
      | some k =>
        match pyIndex command k with
        | none => .error .IndexOutOfRange
        | some (.vint m) => .ok (.vint m)
        | some (.vstr t) => .ok (.vstr t)
        | some (.vobj o) => .ok (port.resolve_argument ws o)
        | some (.vobjs _) => .error .TypeAssertFailure) with
      | .ok v => tdFeed port ws hist v rest
      | .error err => .error err) := by
  cases pyInt? ktok with
  | none => rfl
  | some k => exact tdHistk_feed_push port ws hist command k rest

/-- History argument lookup fed back, outer level: past the replay and
undo guards. -/
theorem tdHistcmd_feed_push (port : WorldPort σ) (ws : σ)
    (hist : List HistEntry) (ktok : String) (hk0 : ktok.data ≠ ['0'])
    (hkU : ktok.data ≠ "Undo".data) (command : HistEntry)
    (rest : List Frame) :
    (if ktok.data = ['0'] then
      match pyIndex command 0 with
      | none => (.error .IndexOutOfRange : Except ExecError (TDDenotVal σ))
      | some (.vstr a) =>
        match rest with
        | [] => .ok ⟨ws, hist, [("A" ++ a, [])]⟩
        | _ :: _ => .error .MisplacedAction
      | some _ => .error .TypeAssertFailure
    else if ktok.data = "Undo".data then
      match pyIndex command 0 with
      | none => .error .IndexOutOfRange
      | some (.vstr a0) =>
        match rest with
        | [] => .ok ⟨ws, hist, [("A" ++ port.reverse_action ws a0, [])]⟩
        | _ :: _ => .error .MisplacedAction
      | some _ => .error .TypeAssertFailure
    else
      match pyInt? ktok with
      | none => .error .ValueParseError
      | some k =>
        match pyIndex command k with
        | none => .error .IndexOutOfRange
        | some (.vint m) => tdFeed port ws hist (.vint m) rest
        | some (.vstr t) => tdFeed port ws hist (.vstr t) rest
        | some (.vobj o) =>
          tdFeed port ws hist (port.resolve_argument ws o) rest
        | some (.vobjs _) => .error .TypeAssertFailure) =
    (match (match pyInt? ktok with
      | none => (.error .ValueParseError : Except ExecError SVal)
      | some k =>
        match pyIndex command k with
        | none => .error .IndexOutOfRange
        | some (.vint m) => .ok (.vint m)
        | some (.vstr t) => .ok (.vstr t)
        | some (.vobj o) => .ok (port.resolve_argument ws o)
        | some (.vobjs _) => .error .TypeAssertFailure) with
      | .ok v => tdFeed port ws hist v rest
      | .error err => .error err) := by
  rw [if_neg hk0, if_neg hkU]
  exact tdHist_feed_push port ws hist command ktok rest

/-- Feeding the slot number of a history-argument frame fires the lookup
and feeds the resolved value onward. -/
theorem tdFeed_hist (port : WorldPort σ) (ws : σ) (hist : List HistEntry)
    (ktok : String) (hk0 : ktok.data ≠ ['0'])
    (hkU : ktok.data ≠ "Undo".data) (n : Int) (rest : List Frame) :
    tdFeed port ws hist (.vint n) (("H" ++ ktok, []) :: rest) =
      match (match pyIndex hist (if 0 < n then n - 1 else n) with
        | none => (.error .IndexOutOfRange : Except ExecError SVal)
        | some command =>
          match pyInt? ktok with
          | none => .error .ValueParseError
          | some k =>
            match pyIndex command k with
            | none => .error .IndexOutOfRange
            | some (.vint m) => .ok (.vint m)
            | some (.vstr t) => .ok (.vstr t)
            | some (.vobj o) => .ok (port.resolve_argument ws o)
            | some (.vobjs _) => .error .TypeAssertFailure) with
      | .ok v => tdFeed port ws hist v rest
      | .error err => .error err := by
  conv_lhs => unfold tdFeed
  rw [check_argument_hist port ktok [] n]
  show (match pyIndex hist (if 0 < n then n - 1 else n) with
    | none => (.error .IndexOutOfRange : Except ExecError (TDDenotVal σ))
    | some command =>
      if ktok.data = ['0'] then
        match pyIndex command 0 with
        | none => .error .IndexOutOfRange
        | some (.vstr a) =>
          match rest with
          | [] => .ok ⟨ws, hist, [("A" ++ a, [])]⟩
          | _ :: _ => .error .MisplacedAction
        | some _ => .error .TypeAssertFailure
      else if ktok.data = "Undo".data then
        match pyIndex command 0 with
        | none => .error .IndexOutOfRange
        | some (.vstr a0) =>
          match rest with
          | [] => .ok ⟨ws, hist, [("A" ++ port.reverse_action ws a0, [])]⟩
          | _ :: _ => .error .MisplacedAction
        | some _ => .error .TypeAssertFailure
      else
        match pyInt? ktok with
        | none => .error .ValueParseError
        | some k =>
          match pyIndex command k with
          | none => .error .IndexOutOfRange
          | some (.vint m) => tdFeed port ws hist (.vint m) rest
          | some (.vstr t) => tdFeed port ws hist (.vstr t) rest
          | some (.vobj o) =>
            tdFeed port ws hist (port.resolve_argument ws o) rest
          | some (.vobjs _) => .error .TypeAssertFailure) = _
  cases hcmd : pyIndex hist (if 0 < n then n - 1 else n) with
  | none => rfl
  | some command =>
    exact tdHistcmd_feed_push port ws hist ktok hk0 hkU command rest

/-- An apply_action call whose arity equals the argument count consumes
all arguments. -/
theorem applyActionArgs_full (port : WorldPort σ) (ws : σ) (a : String)
    (args : List SVal) (h : port.arity a = args.length) :
    port.applyActionArgs ws a args = .ok (port.act ws a args) := by
  unfold WorldPort.applyActionArgs
  rw [if_pos (le_of_eq h), h]
  simp

/-- Feeding a non-final argument into an action frame appends it. -/
theorem tdFeed_action_notready (port : WorldPort σ) (ws : σ)
    (hist : List HistEntry) (a : String) (acc : List SVal) (v : SVal)
    (rest : List Frame)
    (h : (acc.length + 1 == port.arity a) = false) :
    tdFeed port ws hist v (("A" ++ a, acc) :: rest) =
      .ok ⟨ws, hist, ("A" ++ a, acc ++ [v]) :: rest⟩ :=
  tdFeed_not_ready port ws hist v ("A" ++ a, acc) rest
    (by rw [check_argument_action port a acc v, h])

/-- Feeding the final argument into an action frame performs the act. -/
theorem tdFeed_action_ready (port : WorldPort σ) (ws : σ)
    (hist : List HistEntry) (a : String) (acc : List SVal) (v : SVal)
    (rest : List Frame) (h : port.arity a = acc.length + 1) :
    tdFeed port ws hist v (("A" ++ a, acc) :: rest) =
      .ok ⟨(port.act ws a (acc ++ [v])).1,
        hist ++ [(port.act ws a (acc ++ [v])).2], rest⟩ := by
  conv_lhs => unfold tdFeed
  rw [check_argument_action port a acc v]
  have hready : (acc.length + 1 == port.arity a) = true := by simp [h]
  rw [hready]
  show (match port.applyActionArgs ws a (acc ++ [v]) with
    | .ok r => (.ok ⟨r.1, hist ++ [r.2], rest⟩ :
        Except ExecError (TDDenotVal σ))
    | .error e => .error e) = _
  rw [applyActionArgs_full port ws a (acc ++ [v]) (by simp [h])]

/-- Feeding the slot number of a replay frame resolves the recorded
action and opens a fresh action frame for it. -/
theorem tdFeed_H0 (port : WorldPort σ) (ws : σ) (hist : List HistEntry)
    (n : Int) :
    tdFeed port ws hist (.vint n) [("H0", [])] =
      match pyIndex hist (if 0 < n then n - 1 else n) with
      | none => .error .IndexOutOfRange
      | some command =>
        match pyIndex command 0 with
        | none => .error .IndexOutOfRange
        | some (.vstr a) => .ok ⟨ws, hist, [("A" ++ a, [])]⟩
        | some _ => .error .TypeAssertFailure := rfl

/-- Feeding the slot number of an undo frame resolves the recorded
action and opens a fresh action frame for its reverse. -/
theorem tdFeed_HUndo (port : WorldPort σ) (ws : σ) (hist : List HistEntry)
    (n : Int) :
    tdFeed port ws hist (.vint n) [("HUndo", [])] =
      match pyIndex hist (if 0 < n then n - 1 else n) with
      | none => .error .IndexOutOfRange
      | some command =>
        match pyIndex command 0 with
        | none => .error .IndexOutOfRange
        | some (.vstr a0) =>
          .ok ⟨ws, hist, [("A" ++ port.reverse_action ws a0, [])]⟩
        | some _ => .error .TypeAssertFailure := rfl

/-- Opening a property frame. -/
theorem td_open_P (port : WorldPort σ) (p : String) (hp : p ≠ "")
    (ws : σ) (hist : List HistEntry) (f : Frame) (rest : List Frame)
    (c0 : Char) (cs0 : List Char) (hf : f.1.data = c0 :: cs0)
    (hc0 : c0 ≠ 'H') :
    SconeTopDownExecutor.apply port ("P" ++ p) ⟨ws, hist, f :: rest⟩ =
      .ok ⟨ws, hist, ("P" ++ p, []) :: f :: rest⟩ :=
  td_open_function port ("P" ++ p) 'P' p.data rfl
    (fun h => hp (string_data_eq_nil.mp h.1)) (by decide) (by decide)
    (fun h => absurd h.1 (by decide))
    (fun h => by rcases h with h | ⟨h, _⟩ | ⟨h, _⟩ <;> exact absurd h (by decide))
    (Or.inl rfl) ws hist f rest c0 cs0 hf hc0

/-- Opening a double-property frame. -/
theorem td_open_D (port : WorldPort σ) (p : String) (hp : p ≠ "")
    (ws : σ) (hist : List HistEntry) (f : Frame) (rest : List Frame)
    (c0 : Char) (cs0 : List Char) (hf : f.1.data = c0 :: cs0)
    (hc0 : c0 ≠ 'H') :
    SconeTopDownExecutor.apply port ("D" ++ p) ⟨ws, hist, f :: rest⟩ =
      .ok ⟨ws, hist, ("D" ++ p, []) :: f :: rest⟩ :=
  td_open_function port ("D" ++ p) 'D' p.data rfl
    (fun h => hp (string_data_eq_nil.mp h.1)) (by decide) (by decide)
    (fun h => absurd h.1 (by decide))
    (fun h => by rcases h with h | ⟨h, _⟩ | ⟨h, _⟩ <;> exact absurd h (by decide))
    (Or.inr (Or.inl rfl)) ws hist f rest c0 cs0 hf hc0

/-- Opening an index frame. -/
theorem td_open_index (port : WorldPort σ)
    (ws : σ) (hist : List HistEntry) (f : Frame) (rest : List Frame)
    (c0 : Char) (cs0 : List Char) (hf : f.1.data = c0 :: cs0)
    (hc0 : c0 ≠ 'H') :
    SconeTopDownExecutor.apply port "index" ⟨ws, hist, f :: rest⟩ =
      .ok ⟨ws, hist, ("index", []) :: f :: rest⟩ :=
  td_open_function port "index" 'i' "ndex".data rfl (by decide) (by decide)
    (by decide) (by decide) (by decide)
    (Or.inr (Or.inr (Or.inr (Or.inr ⟨rfl, rfl⟩)))) ws hist f rest c0 cs0
    hf hc0

/-- Opening a history-argument frame. -/
theorem td_open_H (port : WorldPort σ) (ktok : String) (hk1 : ktok ≠ "")
    (hk0 : ktok.data ≠ ['0']) (hkU : ktok.data ≠ "Undo".data)
    (ws : σ) (hist : List HistEntry) (f : Frame) (rest : List Frame)
    (c0 : Char) (cs0 : List Char) (hf : f.1.data = c0 :: cs0)
    (hc0 : c0 ≠ 'H') :
    SconeTopDownExecutor.apply port ("H" ++ ktok) ⟨ws, hist, f :: rest⟩ =
      .ok ⟨ws, hist, ("H" ++ ktok, []) :: f :: rest⟩ :=
  td_open_function port ("H" ++ ktok) 'H' ktok.data rfl
    (fun h => hk1 (string_data_eq_nil.mp h.1)) (by decide) (by decide)
    (fun h => absurd h.1 (by decide))
    (fun h => by
      rcases h with h | ⟨_, h⟩ | ⟨_, h⟩
      · exact absurd h (by decide)
      · exact hk0 h
      · exact hkU h)
    (Or.inr (Or.inr (Or.inr (Or.inl rfl)))) ws hist f rest c0 cs0 hf hc0

/-- The top-down apply at a color token feeds it as a string value. -/
theorem td_apply_color (port : WorldPort σ) (name : String) (c : Char)
    (hdata : name.data = [c]) (hc : c.isAlpha = true)
    (d : TDDenotVal σ) :
    SconeTopDownExecutor.apply port name d =
      tdFeed port d.world_state d.command_history (.vstr name)
        d.execution_stack := by
  simp only [SconeTopDownExecutor.apply, hdata]
  simp [hc]

/-- The top-down apply at a fraction token feeds it as a string value. -/
theorem td_apply_fraction (port : WorldPort σ) (name : String)
    (csr : List Char) (hdata : name.data = 'X' :: csr)
    (d : TDDenotVal σ) :
    SconeTopDownExecutor.apply port name d =
      tdFeed port d.world_state d.command_history (.vstr name)
        d.execution_stack := by
  by_cases hcs : csr = []
  · subst hcs
    exact td_apply_color port name 'X' hdata (by decide) d
  · simp only [SconeTopDownExecutor.apply, hdata]
    rw [if_neg (fun h => hcs h.1),
      if_neg (by decide : ¬(('X' : Char) = '-' ∨ ('X' : Char).isDigit = true))]
    simp

/-- The top-down engine evaluates the pre-order token sequence of a
well-formed expression by feeding its denotation into the innermost open
frame, provided that frame is not a history frame; failures agree. -/
theorem runTD_expr (port : WorldPort σ) (e : Expr) (hwf : e.wf = true)
    (ws : σ) (hist : List HistEntry) :
    ∀ (f : Frame) (rest : List Frame) (c0 : Char) (cs0 : List Char),
      f.1.data = c0 :: cs0 → c0 ≠ 'H' →
      runTD port e.tokensTD ⟨ws, hist, f :: rest⟩ =
        match evalExpr port ws hist e with
        | .ok v => tdFeed port ws hist v (f :: rest)
        | .error err => .error err := by
  induction e with
  | color c =>
    intro f rest c0 cs0 hf hc0
    have hc : c.isAlpha = true := hwf
    show runTD port [String.mk [c]] ⟨ws, hist, f :: rest⟩ = _
    rw [runTD_single, td_apply_color port (String.mk [c]) c rfl hc]
    rfl
  | num tok =>
    intro f rest c0 cs0 hf hc0
    obtain ⟨c, cs, n, hd, hnum, hnotcolor, hn⟩ := numTokWF_elim hwf
    show runTD port [tok] ⟨ws, hist, f :: rest⟩ = _
    rw [runTD_single, td_apply_number port tok c cs n _ hd hnotcolor hnum hn]
    simp only [evalExpr, hn]
  | fraction restTok =>
    intro f rest c0 cs0 hf hc0
    show runTD port ["X" ++ restTok] ⟨ws, hist, f :: rest⟩ = _
    rw [runTD_single,
      td_apply_fraction port ("X" ++ restTok) restTok.data rfl]
    rfl
  | allObjects =>
    intro f rest c0 cs0 hf hc0
    show runTD port ["all-objects"] ⟨ws, hist, f :: rest⟩ = _
    rw [runTD_single]
    rfl
  | prop p e ih =>
    intro f rest c0 cs0 hf hc0
    simp only [Expr.wf, Bool.and_eq_true, decide_eq_true_eq] at hwf
    obtain ⟨hp, he⟩ := hwf
    show (match SconeTopDownExecutor.apply port ("P" ++ p)
        ⟨ws, hist, f :: rest⟩ with
      | .ok d2 => runTD port e.tokensTD d2
      | .error e2 => .error e2) = _
    rw [td_open_P port p hp ws hist f rest c0 cs0 hf hc0]
    show runTD port e.tokensTD ⟨ws, hist, ("P" ++ p, []) :: f :: rest⟩ = _
    rw [ih he ("P" ++ p, []) (f :: rest) 'P' p.data rfl (by decide)]
    cases hv : evalExpr port ws hist e with
    | error err => simp only [evalExpr, hv]
    | ok v =>
      simp only [evalExpr, hv]
      rw [tdFeed_prop port ws hist p v (f :: rest)]
      by_cases ht : (port.apply_join ws v p).truthy = true
      · rw [if_pos ht, if_pos ht]
      · rw [if_neg ht, if_neg ht]
  | dprop p e₁ e₂ ih₁ ih₂ =>
    intro f rest c0 cs0 hf hc0
    simp only [Expr.wf, Bool.and_eq_true, decide_eq_true_eq] at hwf
    obtain ⟨⟨hp, he₁⟩, he₂⟩ := hwf
    show (match SconeTopDownExecutor.apply port ("D" ++ p)
        ⟨ws, hist, f :: rest⟩ with
      | .ok d2 => runTD port (e₁.tokensTD ++ e₂.tokensTD) d2
      | .error e2 => .error e2) = _
    rw [td_open_D port p hp ws hist f rest c0 cs0 hf hc0]
    show runTD port (e₁.tokensTD ++ e₂.tokensTD)
        ⟨ws, hist, ("D" ++ p, []) :: f :: rest⟩ = _
    rw [runTD_append,
      ih₁ he₁ ("D" ++ p, []) (f :: rest) 'D' p.data rfl (by decide)]
    cases hv₁ : evalExpr port ws hist e₁ with
    | error err => simp only [evalExpr, hv₁]
    | ok v1 =>
      simp only [evalExpr, hv₁]
      rw [tdFeed_dprop1 port ws hist p v1 (f :: rest)]
      show runTD port e₂.tokensTD
          ⟨ws, hist, ("D" ++ p, [v1]) :: f :: rest⟩ = _
      rw [ih₂ he₂ ("D" ++ p, [v1]) (f :: rest) 'D' p.data rfl (by decide)]
      cases hv₂ : evalExpr port ws hist e₂ with
      | error err => simp only [hv₂]
      | ok v2 =>
        simp only [hv₂]
        rw [tdFeed_dprop2 port ws hist p v1 v2 (f :: rest)]
        by_cases ht : (port.apply_double_join ws v1 v2 p).truthy = true
        · rw [if_pos ht, if_pos ht]
        · rw [if_neg ht, if_neg ht]
  | indexE el en ih₁ ih₂ =>
    intro f rest c0 cs0 hf hc0
    simp only [Expr.wf, Bool.and_eq_true] at hwf
    obtain ⟨he₁, he₂⟩ := hwf
    show (match SconeTopDownExecutor.apply port "index"
        ⟨ws, hist, f :: rest⟩ with
      | .ok d2 => runTD port (el.tokensTD ++ en.tokensTD) d2
      | .error e2 => .error e2) = _
    rw [td_open_index port ws hist f rest c0 cs0 hf hc0]
    show runTD port (el.tokensTD ++ en.tokensTD)
        ⟨ws, hist, ("index", []) :: f :: rest⟩ = _
    rw [runTD_append,
      ih₁ he₁ ("index", []) (f :: rest) 'i' "ndex".data rfl (by decide)]
    cases hv₁ : evalExpr port ws hist el with
    | error err => simp only [evalExpr, hv₁]
    | ok vl =>
      simp only [evalExpr, hv₁]
      rw [tdFeed_index1 port ws hist vl (f :: rest)]
      show runTD port en.tokensTD
          ⟨ws, hist, ("index", [vl]) :: f :: rest⟩ = _
      rw [ih₂ he₂ ("index", [vl]) (f :: rest) 'i' "ndex".data rfl
        (by decide)]
      cases hv₂ : evalExpr port ws hist en with
      | error err => simp only [hv₂]
      | ok vn =>
        simp only [hv₂]
        rw [tdFeed_index2 port ws hist vl vn (f :: rest)]
  | histArg ktok slotTok =>
    intro f rest c0 cs0 hf hc0
    simp only [Expr.wf, Bool.and_eq_true, decide_eq_true_eq] at hwf
    obtain ⟨⟨⟨hk1, hk0⟩, hkU⟩, hslot⟩ := hwf
    obtain ⟨c, cs, n, hd, hnum, hnotcolor, hn⟩ := numTokWF_elim hslot
    have hk0d : ktok.data ≠ ['0'] := fun hc2 => hk0 (string_eq_of_data hc2)
    have hkUd : ktok.data ≠ "Undo".data := fun hc2 =>
      hkU (string_eq_of_data hc2)
    show (match SconeTopDownExecutor.apply port ("H" ++ ktok)
        ⟨ws, hist, f :: rest⟩ with
      | .ok d2 => runTD port [slotTok] d2
      | .error e2 => .error e2) = _
    rw [td_open_H port ktok hk1 hk0d hkUd ws hist f rest c0 cs0 hf hc0]
    show runTD port [slotTok] ⟨ws, hist, ("H" ++ ktok, []) :: f :: rest⟩ = _
    rw [runTD_single, td_apply_number port slotTok c cs n _ hd hnotcolor
      hnum hn]
    rw [tdFeed_hist port ws hist ktok hk0d hkUd n (f :: rest)]
    simp only [evalExpr, hn]

/-- Opening a top-level action frame on an empty stack. -/
theorem td_open_act (port : WorldPort σ) (a : String) (ha : a ≠ "")
    (ws : σ) (hist : List HistEntry) :
    SconeTopDownExecutor.apply port ("A" ++ a) ⟨ws, hist, []⟩ =
      .ok ⟨ws, hist, [("A" ++ a, [])]⟩ := by
  have hd : ("A" ++ a).data = 'A' :: a.data := rfl
  simp only [SconeTopDownExecutor.apply, hd]
  rw [if_neg (fun h => ha (string_data_eq_nil.mp h.1)),
    if_neg (by decide : ¬(('A' : Char) = '-' ∨ ('A' : Char).isDigit = true)),
    if_neg (by decide : ¬('A' : Char) = 'X'),
    if_neg (fun h => absurd h.1 (by decide))]
  simp

/-- Opening a replay frame on an empty stack. -/
theorem td_open_H0 (port : WorldPort σ) (ws : σ) (hist : List HistEntry) :
    SconeTopDownExecutor.apply port "H0" ⟨ws, hist, []⟩ =
      .ok ⟨ws, hist, [("H0", [])]⟩ := rfl

/-- Opening an undo frame on an empty stack. -/
theorem td_open_HUndo (port : WorldPort σ) (ws : σ)
    (hist : List HistEntry) :
    SconeTopDownExecutor.apply port "HUndo" ⟨ws, hist, []⟩ =
      .ok ⟨ws, hist, [("HUndo", [])]⟩ := rfl

/-- The top-down engine feeds the pre-order token sequences of a
well-formed nonempty argument list into a pending action frame and fires
the action on the last one. -/
theorem runTD_act_args (port : WorldPort σ) (a : String) :
    ∀ (args : List Expr) (ws : σ) (hist : List HistEntry)
      (acc : List SVal), args.all Expr.wf = true → args ≠ [] →
      port.arity a = acc.length + args.length →
      runTD port (args.map Expr.tokensTD).flatten
          ⟨ws, hist, [("A" ++ a, acc)]⟩ =
        match evalArgs port ws hist args with
        | .error err => .error err
        | .ok vs =>
          .ok ⟨(port.act ws a (acc ++ vs)).1,
            hist ++ [(port.act ws a (acc ++ vs)).2], []⟩ := by
  intro args
  induction args with
  | nil => intro ws hist acc _ hne _; exact absurd rfl hne
  | cons e es ih =>
    intro ws hist acc hwf hne harity
    simp only [List.all_cons, Bool.and_eq_true] at hwf
    obtain ⟨he, hes⟩ := hwf
    simp only [List.map_cons, List.flatten_cons]
    rw [runTD_append,
      runTD_expr port e he ws hist ("A" ++ a, acc) [] 'A' a.data rfl
        (by decide)]
    cases hv : evalExpr port ws hist e with
    | error err => simp only [evalArgs, hv]
    | ok v =>
      simp only [evalArgs, hv]
      cases es with
      | nil =>
        have hfire : port.arity a = acc.length + 1 := by simpa using harity
        rw [tdFeed_action_ready port ws hist a acc v [] hfire]
        rfl
      | cons e2 es2 =>
        have hnotfull : (acc.length + 1 == port.arity a) = false := by
          rw [beq_eq_false_iff_ne]
          simp only [List.length_cons] at harity
          omega
        rw [tdFeed_action_notready port ws hist a acc v [] hnotfull]
        show runTD port ((e2 :: es2).map Expr.tokensTD).flatten
            ⟨ws, hist, [("A" ++ a, acc ++ [v])]⟩ = _
        rw [ih ws hist (acc ++ [v]) hes (by simp)
          (by simp only [List.length_append, List.length_cons,
            List.length_nil] at harity ⊢; omega)]
        cases hvs : evalArgs port ws hist (e2 :: es2) with
        | error err => rfl
        | ok vs => simp [List.append_assoc]

/-- The top-down engine executes the pre-order token sequence of a
well-formed statement from an empty stack to the statement denotation,
ending with an empty stack; failures agree exactly. -/
theorem runTD_stmt (port : WorldPort σ) (ws : σ) (hist : List HistEntry)
    (s : Stmt) (hok : stmtOK port ws hist s = true) :
    runTD port s.tokensTD ⟨ws, hist, []⟩ =
      match evalStmt port ws hist s with
      | .ok (ws2, hist2) => .ok ⟨ws2, hist2, []⟩
      | .error err => .error err := by
  cases s with
  | act a args =>
    simp only [stmtOK, Bool.and_eq_true, decide_eq_true_eq, beq_iff_eq]
      at hok
    obtain ⟨⟨⟨ha, hargs⟩, hne⟩, harity⟩ := hok
    show (match SconeTopDownExecutor.apply port ("A" ++ a)
        ⟨ws, hist, []⟩ with
      | .ok d2 => runTD port (args.map Expr.tokensTD).flatten d2
      | .error e2 => .error e2) = _
    rw [td_open_act port a ha ws hist]
    show runTD port (args.map Expr.tokensTD).flatten
        ⟨ws, hist, [("A" ++ a, [])]⟩ = _
    rw [runTD_act_args port a args ws hist [] hargs hne
      (by simpa using harity)]
    cases hvs : evalArgs port ws hist args with
    | error err => simp only [evalStmt, hvs]
    | ok vs => simp only [evalStmt, hvs]; rfl
  | replay slotTok args =>
    simp only [stmtOK, Bool.and_eq_true, decide_eq_true_eq] at hok
    obtain ⟨⟨⟨hslot, hargs⟩, hne⟩, hres⟩ := hok
    obtain ⟨c, cs, n, hd, hnum, hnotcolor, hn⟩ := numTokWF_elim hslot
    simp only [hn] at hres
    cases hcmd : pyIndex hist (if 0 < n then n - 1 else n) with
    | none => rw [hcmd] at hres; exact Bool.noConfusion hres
    | some command =>
      simp only [hcmd] at hres
      cases ha0 : pyIndex command 0 with
      | none => rw [ha0] at hres; exact Bool.noConfusion hres
      | some v0 =>
        simp only [ha0] at hres
        cases v0 with
        | vint m => exact Bool.noConfusion hres
        | vobjs l => exact Bool.noConfusion hres
        | vobj o => exact Bool.noConfusion hres
        | vstr a =>
          have harity : port.arity a = args.length := by
            simpa using hres
          show (match SconeTopDownExecutor.apply port "H0"
              ⟨ws, hist, []⟩ with
            | .ok d2 =>
              runTD port (slotTok :: (args.map Expr.tokensTD).flatten) d2
            | .error e2 => .error e2) = _
          rw [td_open_H0 port ws hist]
          show (match SconeTopDownExecutor.apply port slotTok
              ⟨ws, hist, [("H0", [])]⟩ with
            | .ok d2 => runTD port (args.map Expr.tokensTD).flatten d2
            | .error e2 => .error e2) = _
          rw [td_apply_number port slotTok c cs n _ hd hnotcolor hnum hn]
          rw [tdFeed_H0 port ws hist n]
          simp only [hcmd, ha0]
          rw [runTD_act_args port a args ws hist [] hargs hne
            (by simpa using harity)]
          cases hvs : evalArgs port ws hist args with
          | error err => simp only [evalStmt, hn, hcmd, ha0, hvs]
          | ok vs =>
            simp only [evalStmt, hn, hcmd, ha0, hvs]
            rfl
  | undo slotTok args =>
    simp only [stmtOK, Bool.and_eq_true, decide_eq_true_eq] at hok
    obtain ⟨⟨⟨hslot, hargs⟩, hne⟩, hres⟩ := hok
    obtain ⟨c, cs, n, hd, hnum, hnotcolor, hn⟩ := numTokWF_elim hslot
    simp only [hn] at hres
    cases hcmd : pyIndex hist (if 0 < n then n - 1 else n) with
    | none => rw [hcmd] at hres; exact Bool.noConfusion hres
    | some command =>
      simp only [hcmd] at hres
      cases ha0 : pyIndex command 0 with
      | none => rw [ha0] at hres; exact Bool.noConfusion hres
      | some v0 =>
        simp only [ha0] at hres
        cases v0 with
        | vint m => exact Bool.noConfusion hres
        | vobjs l => exact Bool.noConfusion hres
        | vobj o => exact Bool.noConfusion hres
        | vstr a0 =>
          have harity : port.arity (port.reverse_action ws a0) =
              args.length := by simpa using hres
          show (match SconeTopDownExecutor.apply port "HUndo"
              ⟨ws, hist, []⟩ with
            | .ok d2 =>
              runTD port (slotTok :: (args.map Expr.tokensTD).flatten) d2
            | .error e2 => .error e2) = _
          rw [td_open_HUndo port ws hist]
          show (match SconeTopDownExecutor.apply port slotTok
              ⟨ws, hist, [("HUndo", [])]⟩ with
            | .ok d2 => runTD port (args.map Expr.tokensTD).flatten d2
            | .error e2 => .error e2) = _
          rw [td_apply_number port slotTok c cs n _ hd hnotcolor hnum hn]
          rw [tdFeed_HUndo port ws hist n]
          simp only [hcmd, ha0]
          rw [runTD_act_args port (port.reverse_action ws a0) args ws hist
            [] hargs hne (by simpa using harity)]
          cases hvs : evalArgs port ws hist args with
          | error err => simp only [evalStmt, hn, hcmd, ha0, hvs]
          | ok vs =>
            simp only [evalStmt, hn, hcmd, ha0, hvs]
            rfl

/-- The top-down engine executes the pre-order token sequence of a
dynamically well-formed statement list to the reference run. -/
theorem runTD_stmts (port : WorldPort σ) (stmts : List Stmt) :
    ∀ ws hist, stmtsOK port ws hist stmts = true →
      runTD port (progTokensTD stmts) ⟨ws, hist, []⟩ =
        match runStmts port ws hist stmts with
        | .ok (ws2, hist2) => .ok ⟨ws2, hist2, []⟩
        | .error err => .error err := by
  induction stmts with
  | nil => intro ws hist _; rfl
  | cons s rest ih =>
    intro ws hist hok
    simp only [stmtsOK, Bool.and_eq_true] at hok
    obtain ⟨hs, hrest⟩ := hok
    simp only [progTokensTD, List.map_cons, List.flatten_cons]
    rw [runTD_append, runTD_stmt port ws hist s hs]
    cases hev : evalStmt port ws hist s with
    | error err => simp only [runStmts, hev]
    | ok p =>
      obtain ⟨ws2, hist2⟩ := p
      rw [hev] at hrest
      simp only [runStmts, hev]
      exact ih ws2 hist2 hrest

/-- C1: for every logical form expressed as a statement list whose
statements are dynamically well formed along the reference run (each
top-level action, replay, or undo has at least one argument, all argument
expressions are well formed, the slot of a replay or undo resolves to a
recorded action, and the action arity matches the argument count),
executing the postfix token sequence with the bottom-up executor and the
pre-order token sequence with the top-down executor from the same
initial world state and the same port semantics, and finalizing both,
yields equal results — in particular equal final world states.  The
at-least-one-argument requirement is necessary: a zero-argument action
fires immediately bottom-up but its top-down frame never becomes ready
(see the counterexample). -/
theorem td_bu_agree_on_wellformed_programs (σ : Type)
    (port : WorldPort σ) (initial : σ) (stmts : List Stmt)
    (hok : stmtsOK port initial [] stmts = true) :
    (SconeExecutor.execute port initial (progTokensBU stmts) none).bind
        SconeExecutor.finalize =
      (SconeTopDownExecutor.execute port initial (progTokensTD stmts)
          none).bind SconeTopDownExecutor.finalize := by
  show (runBU port (progTokensBU stmts) ⟨initial, [], []⟩).bind
      SconeExecutor.finalize =
    (runTD port (progTokensTD stmts) ⟨initial, [], []⟩).bind
      SconeTopDownExecutor.finalize
  rw [runBU_stmts port stmts initial [] hok,
    runTD_stmts port stmts initial [] hok]
  cases runStmts port initial [] stmts with
  | error e => rfl
  | ok p => rfl

/-- C1 counterexample: the same logical form — a single zero-argument
action — has the same one-token program in postfix and pre-order form,
yet the bottom-up executor completes it (final world state 1) while the
top-down executor leaves the action frame pending forever and
finalization fails, so the two engines do not agree on it. -/
theorem nullary_action_top_down_never_fires :
    Stmt.tokensBU (.act "Nop" []) = ["ANop"] ∧
    Stmt.tokensTD (.act "Nop" []) = ["ANop"] ∧
    (SconeExecutor.execute samplePort 0 ["ANop"] none).bind
        SconeExecutor.finalize = .ok 1 ∧
    (SconeTopDownExecutor.execute samplePort 0 ["ANop"] none).bind
        SconeTopDownExecutor.finalize = .error .IncompleteProgram :=
  ⟨rfl, rfl, rfl, rfl⟩

/-- Witness for C1 on a concrete two-statement program: an action on a
joined property of all objects, then a replay of it through the history
slot. -/
theorem td_bu_agree_on_wellformed_programs_witness :
    stmtsOK samplePort 0 []
        [Stmt.act "Inc" [Expr.prop "red" Expr.allObjects],
         Stmt.replay "1" [Expr.num "5"]] = true ∧
    (SconeExecutor.execute samplePort 0
        (progTokensBU [Stmt.act "Inc" [Expr.prop "red" Expr.allObjects],
          Stmt.replay "1" [Expr.num "5"]]) none).bind
        SconeExecutor.finalize =
      (SconeTopDownExecutor.execute samplePort 0
          (progTokensTD [Stmt.act "Inc" [Expr.prop "red" Expr.allObjects],
            Stmt.replay "1" [Expr.num "5"]]) none).bind
        SconeTopDownExecutor.finalize :=
  ⟨rfl, td_bu_agree_on_wellformed_programs Nat samplePort 0
    [Stmt.act "Inc" [Expr.prop "red" Expr.allObjects],
     Stmt.replay "1" [Expr.num "5"]] rfl⟩
